import Mathlib

/-!
Verification development for the wordflow text-expander core
(src/text_expander_app.py), shallowly embedded over List Char.
-/

set_option maxHeartbeats 1000000

namespace Wordflow

/-- Models Python regex class backslash-s on the ASCII range (space, tab,
newline, carriage return, vertical tab, form feed). -/
def pySpace (c : Char) : Bool :=
  c = ' ' || c = '\t' || c = '\n' || c = '\x0d' || c = '\x0b' || c = '\x0c'

/-- Models Python str.isalnum on the ASCII range: letters and digits. -/
def pyAlnum (c : Char) : Bool := c.isAlphanum

/-- Models Python substring containment (the `in` operator): scans each
start position for a prefix match. -/
def containsSub (pat : List Char) : List Char → Bool
  | [] => pat.isPrefixOf []
  | c :: r => pat.isPrefixOf (c :: r) || containsSub pat r

/-- Structural worker for replaceAll: fuel bounds the number of scan
steps; a fuel of the scanned string's length is always sufficient because
every step consumes at least one character (old is non-empty at use). -/
def replaceAllF (old new : List Char) : Nat → List Char → List Char
  | _, [] => []
  | 0, s => s
  | fuel + 1, c :: r =>
    if old ≠ [] ∧ old.isPrefixOf (c :: r) then
      new ++ replaceAllF old new fuel ((c :: r).drop old.length)
    else
      c :: replaceAllF old new fuel r

/-- Models Python str.replace(old, new): replaces every non-overlapping
occurrence of old, scanning left to right. -/
def replaceAll (old new s : List Char) : List Char :=
  replaceAllF old new s.length s

/-- Models Python str.replace(old, new, 1): replaces only the first
occurrence of old (if any). -/
def replaceFirst (old new : List Char) : List Char → List Char
  | [] => []
  | c :: r =>
    if old ≠ [] ∧ old.isPrefixOf (c :: r) then
      new ++ (c :: r).drop old.length
    else
      c :: replaceFirst old new r

/-- Models Python str.strip(): removes leading and trailing whitespace. -/
def pyStrip (s : List Char) : List Char :=
  ((s.dropWhile pySpace).reverse.dropWhile pySpace).reverse

/-- Decimal digit character for a value below ten (used to model str(int)). -/
def digitChar (d : Nat) : Char :=
  (['0', '1', '2', '3', '4', '5', '6', '7', '8', '9']).getD d '0'

/-- Structural worker for natDigits: fuel bounds the recursion depth; a
fuel of n itself is always sufficient since n / 10 < n for n >= 10. -/
def natDigitsF : Nat → Nat → List Char
  | 0, n => [digitChar n]
  | fuel + 1, n =>
    if n < 10 then [digitChar n]
    else natDigitsF fuel (n / 10) ++ [digitChar (n % 10)]

/-- Models Python str(n) for a non-negative int: its decimal digit string. -/
def natDigits (n : Nat) : List Char := natDigitsF n n

/-- Numeric value of a decimal digit string. -/
def digitsVal (s : List Char) : Nat :=
  s.foldl (fun a c => 10 * a + (c.toNat - 48)) 0

/-- Models Python int(str) restricted to the non-negative decimal strings
that occur in this program (the regex only captures digit runs): succeeds
exactly on a non-empty all-digit string, else fails (raises ValueError). -/
def pyInt (s : List Char) : Option Nat :=
  if s ≠ [] ∧ s.all Char.isDigit then some (digitsVal s) else none

/-- Models the contract of random.randint(a, b) for a ≤ b: the draw
parameter selects which value of the inclusive range [a, b] is returned. -/
def randint (a b draw : Nat) : Nat := a + draw % (b - a + 1)

/-- The error marker produced by replace_random when min > max:
the string "[Random Error: min(MIN) > max(MAX)]". -/
def randomErrGt (minv maxv : Nat) : List Char :=
  "[Random Error: min(".toList ++ natDigits minv ++ ") > max(".toList
    ++ natDigits maxv ++ ")]".toList

/-- The error marker produced by replace_random's except branch:
"[Random Error: GROUP0]" naming the whole offending placeholder. -/
def randomErrRaw (group0 : List Char) : List Char :=
  "[Random Error: ".toList ++ group0 ++ "]".toList

/-- Attempts to match the body of the random regex
(group 1: digits, optional spaces, dash, optional spaces, digits, then the
closing brace) at the start of s.  Returns (group 1 contents, rest after
the closing brace).  Mirrors the regex `([0-9]+\s*-\s*[0-9]+)` followed by
the closing brace in r"\{random:([0-9]+\s*-\s*[0-9]+)\}". -/
def matchRandomBody (s : List Char) : Option (List Char × List Char) :=
  let d1 := s.takeWhile Char.isDigit
  let r1 := s.dropWhile Char.isDigit
  if d1 = [] then none
  else
    let w1 := r1.takeWhile pySpace
    match r1.dropWhile pySpace with
    | '-' :: r3 =>
      let w2 := r3.takeWhile pySpace
      let r4 := r3.dropWhile pySpace
      let d2 := r4.takeWhile Char.isDigit
      if d2 = [] then none
      else
        match r4.dropWhile Char.isDigit with
        | '}' :: r6 => some (d1 ++ w1 ++ '-' :: (w2 ++ d2), r6)
        | _ => none
    | _ => none

/-- Attempts to match the whole random placeholder regex
r"\{random:([0-9]+\s*-\s*[0-9]+)\}" at the start of s. -/
def matchRandomAt (s : List Char) : Option (List Char × List Char) :=
  if "\x7brandom:".toList.isPrefixOf s then matchRandomBody (s.drop 8) else none

/-- Models replace_random (src/text_expander_app.py lines 1692-1704) on a
regex match with group 1 contents g: split g on the first dash, strip and
int-parse both sides, then return the drawn value for min ≤ max, the
min-greater-than-max error marker otherwise; any parse failure (the except
branch) yields the raw error marker naming group 0. -/
def replace_random (draw : Nat) (g : List Char) : List Char :=
  let group0 := "\x7brandom:".toList ++ g ++ "\x7d".toList
  let minStr := g.takeWhile (· ≠ '-')
  match g.dropWhile (· ≠ '-') with
  | '-' :: maxStr =>
    match pyInt (pyStrip minStr), pyInt (pyStrip maxStr) with
    | some minVal, some maxVal =>
      if minVal ≤ maxVal then natDigits (randint minVal maxVal draw)
      else randomErrGt minVal maxVal
    | _, _ => randomErrRaw group0
  | _ => randomErrRaw group0

lemma dropWhile_length_le (p : Char → Bool) (l : List Char) :
    (l.dropWhile p).length ≤ l.length := by
  induction l with
  | nil => simp
  | cons a l ih =>
    by_cases h : p a
    · rw [List.dropWhile_cons_of_pos h]; simp; omega
    · rw [List.dropWhile_cons_of_neg h]

lemma matchRandomBody_length {s g r : List Char}
    (h : matchRandomBody s = some (g, r)) : r.length < s.length := by
  unfold matchRandomBody at h
  simp only at h
  split at h
  · exact absurd h (by simp)
  · rename_i hd1
    have hs : (s.takeWhile Char.isDigit).length + (s.dropWhile Char.isDigit).length
        = s.length := by
      rw [← List.length_append, List.takeWhile_append_dropWhile]
    have hd1len : 1 ≤ (s.takeWhile Char.isDigit).length :=
      List.length_pos.mpr hd1
    split at h
    · rename_i r3 hr3
      have hr3len : r3.length + 1 ≤ (s.dropWhile Char.isDigit).length := by
        have := dropWhile_length_le pySpace (s.dropWhile Char.isDigit)
        rw [hr3] at this
        simpa using this
      split at h
      · exact absurd h (by simp)
      · split at h
        · rename_i r6 hr6
          have hr6len : r6.length + 1 ≤ (r3.dropWhile pySpace).length := by
            have := dropWhile_length_le Char.isDigit (r3.dropWhile pySpace)
            rw [hr6] at this
            simpa using this
          have hr4len : (r3.dropWhile pySpace).length ≤ r3.length :=
            dropWhile_length_le _ _
          have hrr : r = r6 := by
            simp only [Option.some.injEq, Prod.mk.injEq] at h
            exact h.2.symm
          subst hrr
          omega
        · exact absurd h (by simp)
    · exact absurd h (by simp)

lemma matchRandomAt_length {s g r : List Char}
    (h : matchRandomAt (s : List Char) = some (g, r)) : r.length < s.length := by
  unfold matchRandomAt at h
  split at h
  · have := matchRandomBody_length h
    have hdl : (s.drop 8).length ≤ s.length := by
      simp only [List.length_drop]; omega
    omega
  · exact absurd h (by simp)

/-- Structural worker for subRandom: fuel bounds the number of scan steps;
the scanned string's length is always sufficient since every step consumes
at least one character (matchRandomAt_length). -/
def subRandomF (draws : Nat → Nat) : Nat → Nat → List Char → List Char
  | _, _, [] => []
  | 0, _, s => s
  | fuel + 1, k, c :: r =>
    match matchRandomAt (c :: r) with
    | some (g, rest) => replace_random (draws k) g ++ subRandomF draws fuel (k + 1) rest
    | none => c :: subRandomF draws fuel k r

/-- Models re.sub(r"\{random:([0-9]+\s*-\s*[0-9]+)\}", replace_random, s):
scans left to right, replacing each non-overlapping match; k counts the
draws consumed so far, draws k being the k-th random draw. -/
def subRandom (draws : Nat → Nat) (k : Nat) (s : List Char) : List Char :=
  subRandomF draws s.length k s

/-- Attempts to match the input placeholder regex r"\{input:([^}]*)\}" at
the start of s: the literal open, a prompt of non-brace characters up to
the first closing brace.  Returns (group 1 prompt, rest after the brace). -/
def matchInputAt (s : List Char) : Option (List Char × List Char) :=
  if "\x7binput:".toList.isPrefixOf s then
    match (s.drop 7).dropWhile (· ≠ '}') with
    | '}' :: r => some ((s.drop 7).takeWhile (· ≠ '}'), r)
    | _ => none
  else none

lemma matchInputAt_length {s g r : List Char}
    (h : matchInputAt s = some (g, r)) : r.length < s.length := by
  unfold matchInputAt at h
  split at h
  · rename_i hpre
    split at h
    · rename_i r' hr'
      have h7 : 7 ≤ s.length := by
        have := hpre
        rw [ List.isPrefixOf_iff_prefix] at this
        have := this.length_le
        simpa using this
      have hr'len : r'.length + 1 ≤ (s.drop 7).length := by
        have := dropWhile_length_le (· ≠ '}') (s.drop 7)
        rw [hr'] at this
        simpa using this
      have hrr : r = r' := by
        simp only [Option.some.injEq, Prod.mk.injEq] at h
        exact h.2.symm
      subst hrr
      simp only [List.length_drop] at hr'len
      omega
    · exact absurd h (by simp)
  · exact absurd h (by simp)

/-- The full text of an input placeholder with prompt p (match.group(0)). -/
def phInput (p : List Char) : List Char :=
  "\x7binput:".toList ++ p ++ "\x7d".toList

/-- Structural worker for findInputs: fuel bounds the number of scan
steps; the scanned string's length is always sufficient since every step
consumes at least one character (matchInputAt_length). -/
def findInputsF : Nat → List Char → List (List Char)
  | _, [] => []
  | 0, _ => []
  | fuel + 1, c :: r =>
    match matchInputAt (c :: r) with
    | some (p, rest) => p :: findInputsF fuel rest
    | none => findInputsF fuel r

/-- Models list(re.finditer(r"\{input:([^}]*)\}", s)): the prompts of all
non-overlapping input placeholders, scanned left to right.  Each entry is
one input request made to the user (duplicates are not merged). -/
def findInputs (s : List Char) : List (List Char) :=
  findInputsF s.length s

/-- Models the final replacement loop of process_placeholders: for each
collected (placeholder, value) pair in order, result.replace(ph, val, 1). -/
def applyInputs (vals : List (List Char × List Char)) (s : List Char) : List Char :=
  vals.foldl (fun acc pv => replaceFirst pv.1 pv.2 acc) s

/-- The external clock as process_placeholders consumes it: a strftime
formatter (sampled once at datetime.datetime.now()) and weekday() as an
index, 0 = Monday .. 6 = Sunday. -/
structure DateTime where
  strftime : List Char → List Char
  weekday : Fin 7

/-- The weekdays table of process_placeholders. -/
def weekdays : List (List Char) :=
  ["Monday".toList, "Tuesday".toList, "Wednesday".toList, "Thursday".toList,
   "Friday".toList, "Saturday".toList, "Sunday".toList]

/-- The four fixed-order literal substitutions of process_placeholders
(src/text_expander_app.py lines 1683-1687): date, time, date_long, weekday. -/
def literal_pass (now : DateTime) (text : List Char) : List Char :=
  replaceAll "{weekday}".toList (weekdays.getD now.weekday.val [])
    (replaceAll "{date_long}".toList (now.strftime "%B %d, %Y".toList)
      (replaceAll "{time}".toList (now.strftime "%H:%M".toList)
        (replaceAll "{date}".toList (now.strftime "%m/%d/%Y".toList) text)))

/-- The clipboard substitution of process_placeholders (lines 1689-1690):
guarded by containment, replaces every clipboard token with clip, which is
the value returned by get_clipboard_content (the pasted text, or the
clipboard error / not-available marker). -/
def clipboard_pass (clip : List Char) (text : List Char) : List Char :=
  if containsSub "{clipboard}".toList text then
    replaceAll "{clipboard}".toList clip text
  else text

/-- Models process_placeholders (src/text_expander_app.py lines 1664-1723)
as a pure function of the sampled now, the clipboard text, the random
draws and the user responses (resp i is the answer to the i-th input
request).  The function is total: every failure path of the source
degrades to inline error text, never an exception. -/
def process_placeholders (now : DateTime) (clip : List Char)
    (draws : Nat → Nat) (resp : Nat → List Char) (text : List Char) : List Char :=
  let result := clipboard_pass clip (literal_pass now text)
  let result := subRandom draws 0 result
  let vals := (findInputs result).enum.map fun iv => (phInput iv.2, resp iv.1)
  applyInputs vals result

/-! ## Shortcut matcher (on_key_press, src/text_expander_app.py 1985-2057) -/

/-- The keystroke events on_key_press distinguishes: a printable character
(pynput key.char), space, tab, enter, escape, backspace, or any other
special key (no char attribute). -/
inductive Key where
  | char (c : Char)
  | space
  | tab
  | enter
  | esc
  | backspace
  | other
deriving DecidableEq

/-- Worker for rfind: tries start positions i-1, i-2, ..., 0, returning
the first (hence largest) position where pat is a prefix of the rest. -/
def rfindFrom (pat s : List Char) : Nat → Option Nat
  | 0 => none
  | i + 1 => if pat.isPrefixOf (s.drop i) then some i else rfindFrom pat s i

/-- Models Python str.rfind(pat): the largest start position of an
occurrence of pat in s, or none (Python -1) when there is none. -/
def rfind (pat s : List Char) : Option Nat :=
  rfindFrom pat s (s.length + 1)

/-- Models the should_expand computation of on_key_press (lines 2029-2043)
for a shortcut that the buffer ends with: command-like shortcuts (first
character not alphanumeric) expand unconditionally; word-like shortcuts
need the rfind position to be 0 or preceded by a non-alphanumeric
character. -/
def should_expand (buf shortcut : List Char) : Bool :=
  let is_command_like :=
    match shortcut with
    | [] => false
    | c :: _ => ! pyAlnum c
  if is_command_like then true
  else
    match rfind shortcut buf with
    | some idx =>
      if idx = 0 then true
      else decide (0 < idx) && ! pyAlnum (buf.getD (idx - 1) 'a')
    | none => false

/-- The full per-shortcut test of the matching loop: the buffer must end
with the shortcut (str.endswith) and should_expand must hold. -/
def matchCond (buf shortcut : List Char) : Bool :=
  shortcut.isSuffixOf buf && should_expand buf shortcut

/-- Models sorted(keys, key=len, reverse=True): a stable sort of the
snippet association list by descending shortcut length. -/
def sortSnips (snips : List (List Char × List Char)) : List (List Char × List Char) :=
  List.insertionSort (fun a b => b.1.length ≤ a.1.length) snips

/-- The matching loop of on_key_press (lines 2026-2054): the first
shortcut, in descending-length order, whose condition holds, together with
its snippet text. -/
def find_match (snips : List (List Char × List Char)) (buf : List Char) :
    Option (List Char × List Char) :=
  (sortSnips snips).find? fun p => matchCond buf p.1

/-- The buffer trim of on_key_press (lines 2016-2018): keep only the last
max_buffer = 60 characters. -/
def trimBuf (buf : List Char) : List Char :=
  if buf.length > 60 then buf.drop (buf.length - 60) else buf

/-- Models one call of on_key_press as a pure transition: from the snippet
table and the current input buffer, the new buffer together with the
dispatched match, if any.  Tab, enter and escape reset the buffer and
return before matching; backspace drops the last buffer character and
falls through to the matching loop, as do other special keys (with the
buffer unchanged); a fired match resets the buffer. -/
def on_key_press (snips : List (List Char × List Char)) (buf : List Char)
    (k : Key) : List Char × Option (List Char × List Char) :=
  match k with
  | .tab => ([], none)
  | .enter => ([], none)
  | .esc => ([], none)
  | _ =>
    let charPressed : Option Char :=
      match k with
      | .char c => some c
      | .space => some ' '
      | _ => none
    let buf1 :=
      match k with
      | .backspace => buf.dropLast
      | _ =>
        match charPressed with
        | some c => buf ++ [c]
        | none => buf
    let buf2 := trimBuf buf1
    match find_match snips buf2 with
    | some m => ([], some m)
    | none => (buf2, none)

/-! ## Expansion coordinator history
(_process_and_replace_on_main_thread, lines 2066-2069) -/

/-- Models the snippet_history update after a dispatched expansion: append
the shortcut if it is not already recorded, then drop the oldest entry
(pop(0)) if the list exceeds 10 entries. -/
def updateHistory (hist : List (List Char)) (shortcut : List Char) :
    List (List Char) :=
  if shortcut ∈ hist then hist
  else if (hist ++ [shortcut]).length > 10 then (hist ++ [shortcut]).tail
  else hist ++ [shortcut]

/-! ## Replacement protocol (replace_text, lines 2077-2145) -/

/-- The keys replace_text synthesizes. -/
inductive KKey where
  | shift
  | left
  | backspace
  | ctrl
  | cmd
  | charK (c : Char)
deriving DecidableEq

/-- One observable step of replace_text: a key press or release, a timed
sleep (milliseconds), a clipboard read (pyperclip.paste), a clipboard
write (pyperclip.copy), or the final completion log line. -/
inductive KEv where
  | press (k : KKey)
  | release (k : KKey)
  | sleepMs (n : Nat)
  | clipRead
  | clipWrite (s : List Char)
  | logDone
deriving DecidableEq

/-- The selection loop of replace_text (lines 2090-2093): for each of the
shortcut's characters, press and release left-arrow then sleep 5 ms, all
while shift is held by the surrounding context manager. -/
def selectLoop : Nat → List KEv
  | 0 => []
  | n + 1 => selectLoop n ++ [.press .left, .release .left, .sleepMs 5]

/-- The paste chord of replace_text (lines 2116-2123): cmd+v on macOS,
ctrl+v otherwise, with the modifier held around the v press/release. -/
def pasteChord (darwin : Bool) : List KEv :=
  if darwin then [.press .cmd, .press (.charK 'v'), .release (.charK 'v'), .release .cmd]
  else [.press .ctrl, .press (.charK 'v'), .release (.charK 'v'), .release .ctrl]

/-- Models kb_controller.type(text): pynput types a string by pressing and
releasing each character in order. -/
def typeSeq : List Char → List KEv
  | [] => []
  | c :: r => .press (.charK c) :: .release (.charK c) :: typeSeq r

/-- Models replace_text (lines 2077-2145) as the trace of observable steps
it emits when no step raises: guard on keyboard availability; select the
shortcut with shift+left-arrow; delete it with one backspace; then either
the clipboard swap-and-paste path (save, write replacement, paste chord,
restore the saved content when the save succeeded) or, without clipboard
capability, type the replacement character by character.  origClip is the
result of the initial pyperclip.paste (none when that read raised). -/
def replace_text (kbAvail clipAvail darwin : Bool)
    (origClip : Option (List Char)) (shortcut replacement : List Char) : List KEv :=
  if ! kbAvail then []
  else
    .press .shift :: selectLoop shortcut.length ++ [.release .shift]
      ++ [.sleepMs 20, .press .backspace, .release .backspace, .sleepMs 20]
      ++ (if clipAvail then
            .clipRead :: [.clipWrite replacement, .sleepMs 50]
              ++ pasteChord darwin ++ [.sleepMs 50]
              ++ (match origClip with
                  | some o => [.clipWrite o]
                  | none => [])
              ++ [.logDone]
          else typeSeq replacement ++ [.logDone])

/-! ## Spec-side definitions used to compare against the code -/

/-- Built from the spec's words, for comparison with the code: whether a
whole brace span matches the whitespace-tolerant random pattern the spec
gives, backslash-open-brace random colon s* d+ s* dash s* d+ s*
backslash-close-brace. -/
def specRandomSpan (s : List Char) : Bool :=
  "\x7brandom:".toList.isPrefixOf s &&
    (let t0 := (s.drop 8).dropWhile pySpace
     let d1 := t0.takeWhile Char.isDigit
     let t1 := (t0.dropWhile Char.isDigit).dropWhile pySpace
     decide (d1 ≠ []) &&
       match t1 with
       | '-' :: t2 =>
         let t3 := t2.dropWhile pySpace
         let d2 := t3.takeWhile Char.isDigit
         decide (d2 ≠ []) &&
           match (t3.dropWhile Char.isDigit).dropWhile pySpace with
           | ['}'] => true
           | _ => false
       | _ => false)

/-- Built from the spec's words, for comparison with the code:
occurrence-indexed substitution of the input placeholders, where the k-th
original occurrence (scanned left to right) is replaced by resp k in
place, so a substituted response is never itself rescanned. -/
def substOccF (resp : Nat → List Char) : Nat → Nat → List Char → List Char
  | _, _, [] => []
  | 0, _, s => s
  | fuel + 1, k, c :: r =>
    match matchInputAt (c :: r) with
    | some (_, rest) => resp k ++ substOccF resp fuel (k + 1) rest
    | none => c :: substOccF resp fuel k r

/-- Occurrence-indexed substitution over a whole string (spec's words). -/
def substOcc (resp : Nat → List Char) (s : List Char) : List Char :=
  substOccF resp s.length 0 s

/-! ## Helper lemmas -/

lemma trimBuf_length_le (b : List Char) : (trimBuf b).length ≤ 60 := by
  unfold trimBuf
  split
  · simp only [List.length_drop]
    omega
  · omega

lemma find_match_eq_none_iff {snips : List (List Char × List Char)}
    {buf : List Char} :
    find_match snips buf = none ↔ ∀ p ∈ snips, matchCond buf p.1 = false := by
  unfold find_match
  rw [List.find?_eq_none]
  constructor
  · intro h p hp
    have hmem : p ∈ sortSnips snips :=
      ((List.perm_insertionSort _ snips).mem_iff).mpr hp
    simpa using h p hmem
  · intro h p hp
    have hmem : p ∈ snips :=
      ((List.perm_insertionSort _ snips).mem_iff).mp hp
    simp [h p hmem]

lemma selectLoop_count_press_left (n : Nat) :
    (selectLoop n).count (KEv.press KKey.left) = n := by
  induction n with
  | zero => simp [selectLoop]
  | succ n ih => simp [selectLoop, ih, List.count_append, List.count_cons]

lemma selectLoop_count_release_left (n : Nat) :
    (selectLoop n).count (KEv.release KKey.left) = n := by
  induction n with
  | zero => simp [selectLoop]
  | succ n ih => simp [selectLoop, ih, List.count_append, List.count_cons]

lemma selectLoop_count_other (n : Nat) (e : KEv)
    (h1 : e ≠ KEv.press KKey.left) (h2 : e ≠ KEv.release KKey.left)
    (h3 : e ≠ KEv.sleepMs 5) :
    (selectLoop n).count e = 0 := by
  induction n with
  | zero => simp [selectLoop]
  | succ n ih =>
    simp [selectLoop, ih, List.count_append, List.count_cons, h1, h2, h3]

lemma typeSeq_count_press_backspace (s : List Char) :
    (typeSeq s).count (KEv.press KKey.backspace) = 0 := by
  induction s with
  | nil => simp [typeSeq]
  | cons c r ih => simp [typeSeq, List.count_cons, ih]

lemma typeSeq_count_press_left (s : List Char) :
    (typeSeq s).count (KEv.press KKey.left) = 0 := by
  induction s with
  | nil => simp [typeSeq]
  | cons c r ih => simp [typeSeq, List.count_cons, ih]

lemma typeSeq_no_clip (s : List Char) (t : List Char) :
    (typeSeq s).count KEv.clipRead = 0
      ∧ (typeSeq s).count (KEv.clipWrite t) = 0 := by
  induction s with
  | nil => simp [typeSeq]
  | cons c r ih => simp [typeSeq, List.count_cons, ih.1, ih.2]

/-! ## Claims C6, C9, C3, C8 -/

/-- C6: the input buffer's length never exceeds the fixed capacity 60
after any keystroke; an append past capacity drops the oldest characters
(sliding window); Tab, Enter and Escape reset the buffer to empty without
producing a match. -/
theorem claim6_buffer_capacity :
    (∀ snips buf k, ((on_key_press snips buf k).1).length ≤ 60)
      ∧ (∀ snips buf c, 60 ≤ buf.length →
          (on_key_press snips buf (Key.char c)).1 = []
            ∨ (on_key_press snips buf (Key.char c)).1
                = (buf ++ [c]).drop (buf.length + 1 - 60))
      ∧ (∀ snips buf,
          on_key_press snips buf Key.tab = ([], none)
            ∧ on_key_press snips buf Key.enter = ([], none)
            ∧ on_key_press snips buf Key.esc = ([], none)) := by
  refine ⟨?_, ?_, ?_⟩
  · intro snips buf k
    cases k <;> simp only [on_key_press] <;>
      first
        | simp
        | (cases h : find_match snips (trimBuf (buf.dropLast)) <;>
            simp [h, trimBuf_length_le])
        | (cases h : find_match snips (trimBuf (buf ++ [_])) <;>
            simp [h, trimBuf_length_le])
        | (cases h : find_match snips (trimBuf (buf ++ [' '])) <;>
            simp [h, trimBuf_length_le])
        | (cases h : find_match snips (trimBuf buf) <;>
            simp [h, trimBuf_length_le])
  · intro snips buf c hlen
    simp only [on_key_press]
    have htrim : trimBuf (buf ++ [c]) = (buf ++ [c]).drop (buf.length + 1 - 60) := by
      unfold trimBuf
      rcases Nat.lt_or_ge 60 (buf.length + 1) with h | h
      · simp [List.length_append]
        omega
      · have h60 : buf.length = 60 := by omega
        simp [List.length_append, h60]
    rw [htrim]
    cases h : find_match snips ((buf ++ [c]).drop (buf.length + 1 - 60)) <;> simp [h]
  · intro snips buf
    exact ⟨rfl, rfl, rfl⟩

/-- Witness for claim6_buffer_capacity at a concrete full buffer. -/
theorem claim6_buffer_capacity_witness :
    60 ≤ (List.replicate 60 'a').length ∧
      ((on_key_press [] (List.replicate 60 'a') (Key.char 'b')).1 = []
        ∨ (on_key_press [] (List.replicate 60 'a') (Key.char 'b')).1
            = (List.replicate 60 'a' ++ ['b']).drop
                ((List.replicate 60 'a').length + 1 - 60)) :=
  ⟨by simp, claim6_buffer_capacity.2.1 [] (List.replicate 60 'a') 'b' (by simp)⟩

/-- C9: after a dispatched expansion the matched shortcut is in the
recent-history list; the list never exceeds 10 entries; when the bound is
reached and a new shortcut is recorded, the oldest entry is evicted
first (FIFO). -/
theorem claim9_history_bound :
    ∀ (hist : List (List Char)) (s : List Char),
      s ∈ updateHistory hist s
        ∧ (hist.length ≤ 10 → (updateHistory hist s).length ≤ 10)
        ∧ (s ∉ hist → hist.length = 10 →
            updateHistory hist s = hist.tail ++ [s]) := by
  intro hist s
  refine ⟨?_, ?_, ?_⟩
  · unfold updateHistory
    split
    · assumption
    · split
      · rename_i hlen
        cases hist with
        | nil => simp at hlen
        | cons a t => simp
      · simp
  · intro hbound
    unfold updateHistory
    split
    · omega
    · split <;> rename_i hlen <;> simp_all <;> omega
  · intro hmem hlen
    unfold updateHistory
    rw [if_neg hmem]
    cases hist with
    | nil => simp at hlen
    | cons a t =>
      have : (a :: t ++ [s]).length > 10 := by
        simp at hlen ⊢
        omega
      rw [if_pos this]
      simp

/-- Witness for claim9_history_bound at a concrete full history. -/
theorem claim9_history_bound_witness :
    let h10 : List (List Char) :=
      [['0'], ['1'], ['2'], ['3'], ['4'], ['5'], ['6'], ['7'], ['8'], ['9']]
    ['x'] ∈ updateHistory h10 ['x']
      ∧ (updateHistory h10 ['x']).length ≤ 10
      ∧ updateHistory h10 ['x'] = h10.tail ++ [['x']] := by
  intro h10
  refine ⟨(claim9_history_bound h10 ['x']).1,
    (claim9_history_bound h10 ['x']).2.1 (by decide),
    (claim9_history_bound h10 ['x']).2.2 (by decide) (by decide)⟩

/-- C3 counterexample: with the single snippet "ab" -> "T" and buffer
"abc", a backspace keystroke dispatches the expansion of "ab" - the claim
that a backspace event never returns a match is false on the code, which
falls through to the matching loop after shortening the buffer. -/
theorem claim3_counterexample :
    (on_key_press [("ab".toList, "T".toList)] "abc".toList Key.backspace).2
      = some ("ab".toList, "T".toList)
      ∧ (on_key_press [("ab".toList, "T".toList)] "abc".toList Key.backspace).2
          ≠ none := by
  decide

/-- C3 (amended): a backspace removes the last buffer character (a no-op
without exception on an empty buffer, where no match fires as long as all
shortcuts are non-empty), but matching then proceeds on the shortened
buffer exactly as after an append, so a backspace can dispatch an
expansion. -/
theorem claim3_backspace_behaviour :
    ∀ (snips : List (List Char × List Char)) (buf : List Char),
      (∀ p ∈ snips, p.1 ≠ []) →
        on_key_press snips [] Key.backspace = ([], none)
          ∧ (on_key_press snips buf Key.backspace).2
              = find_match snips (trimBuf buf.dropLast)
          ∧ (find_match snips (trimBuf buf.dropLast) = none →
              on_key_press snips buf Key.backspace
                = (trimBuf buf.dropLast, none)) := by
  intro snips buf hne
  refine ⟨?_, ?_, ?_⟩
  · have hnone : find_match snips [] = none := by
      rw [find_match_eq_none_iff]
      intro p hp
      unfold matchCond
      have : p.1.isSuffixOf [] = false := by
        rw [Bool.eq_false_iff]
        intro hsuf
        rw [List.isSuffixOf_iff_suffix] at hsuf
        exact hne p hp (List.suffix_nil.mp hsuf)
      simp [this]
    simp only [on_key_press]
    have : trimBuf (List.dropLast []) = ([] : List Char) := by decide
    rw [this, hnone]
  · simp only [on_key_press]
    cases h : find_match snips (trimBuf buf.dropLast) <;> simp [h]
  · intro hnone
    simp only [on_key_press]
    rw [hnone]

/-- Witness for claim3_backspace_behaviour at concrete inputs. -/
theorem claim3_backspace_behaviour_witness :
    on_key_press [("ab".toList, "T".toList)] [] Key.backspace = ([], none)
      ∧ (on_key_press [("ab".toList, "T".toList)] "xy".toList Key.backspace).2
          = find_match [("ab".toList, "T".toList)] (trimBuf "xy".toList.dropLast)
      ∧ (find_match [("ab".toList, "T".toList)] (trimBuf "xy".toList.dropLast) = none →
          on_key_press [("ab".toList, "T".toList)] "xy".toList Key.backspace
            = (trimBuf "xy".toList.dropLast, none)) :=
  claim3_backspace_behaviour [("ab".toList, "T".toList)] "xy".toList (by decide)

/-- C8: the replacement protocol emits, in order, exactly
shortcut-length shift+left press/release pairs with shift held
throughout, then one backspace press/release, then with clipboard
capability the swap-and-paste sequence (save the clipboard, write the
replacement, emit the platform paste chord, restore the saved content),
and without clipboard capability it instead types the replacement
character by character. -/
theorem claim8_replacement_protocol :
    ∀ (darwin : Bool) (orig : Option (List Char)) (shortcut repl : List Char),
      replace_text true true darwin orig shortcut repl
          = KEv.press KKey.shift :: selectLoop shortcut.length
              ++ [KEv.release KKey.shift, KEv.sleepMs 20,
                  KEv.press KKey.backspace, KEv.release KKey.backspace,
                  KEv.sleepMs 20, KEv.clipRead, KEv.clipWrite repl,
                  KEv.sleepMs 50]
              ++ pasteChord darwin ++ [KEv.sleepMs 50]
              ++ (match orig with
                  | some o => [KEv.clipWrite o]
                  | none => [])
              ++ [KEv.logDone]
        ∧ (selectLoop shortcut.length).count (KEv.press KKey.left)
            = shortcut.length
        ∧ (selectLoop shortcut.length).count (KEv.release KKey.left)
            = shortcut.length
        ∧ (replace_text true true darwin orig shortcut repl).count
            (KEv.press KKey.backspace) = 1
        ∧ (replace_text true true darwin orig shortcut repl).count
            (KEv.release KKey.backspace) = 1
        ∧ replace_text true false darwin orig shortcut repl
            = KEv.press KKey.shift :: selectLoop shortcut.length
                ++ [KEv.release KKey.shift, KEv.sleepMs 20,
                    KEv.press KKey.backspace, KEv.release KKey.backspace,
                    KEv.sleepMs 20]
                ++ typeSeq repl ++ [KEv.logDone]
        ∧ (replace_text true false darwin orig shortcut repl).count
            KEv.clipRead = 0 := by
  intro darwin orig shortcut repl
  refine ⟨?_, selectLoop_count_press_left _, selectLoop_count_release_left _,
    ?_, ?_, ?_, ?_⟩
  · simp [replace_text]
  · cases orig <;> cases darwin <;>
      simp [replace_text, pasteChord, List.count_append, List.count_cons,
        selectLoop_count_other]
  · cases orig <;> cases darwin <;>
      simp [replace_text, pasteChord, List.count_append, List.count_cons,
        selectLoop_count_other]
  · simp [replace_text]
  · simp [replace_text, List.count_append, List.count_cons,
      selectLoop_count_other, (typeSeq_no_clip repl []).1]

lemma rfindFrom_eq_some {s buf : List Char} {i₀ : Nat}
    (hhit : s.isPrefixOf (buf.drop i₀) = true)
    (habove : ∀ j, i₀ < j → s.isPrefixOf (buf.drop j) = false) :
    ∀ n, i₀ < n → rfindFrom s buf n = some i₀ := by
  intro n
  induction n with
  | zero => omega
  | succ n ih =>
    intro hlt
    unfold rfindFrom
    by_cases hn : n = i₀
    · subst hn
      rw [if_pos hhit]
    · have hgt : i₀ < n := by omega
      rw [if_neg (by simp [habove n hgt])]
      exact ih hgt

lemma rfind_of_suffix {s buf : List Char} (hne : s ≠ []) (hsuf : s <:+ buf) :
    rfind s buf = some (buf.length - s.length) := by
  obtain ⟨pre, hpre⟩ := hsuf
  have hlen : buf.length = pre.length + s.length := by
    rw [← hpre, List.length_append]
  have hi₀ : buf.length - s.length = pre.length := by omega
  have hspos : 0 < s.length := List.length_pos.mpr hne
  have hhit : s.isPrefixOf (buf.drop (buf.length - s.length)) = true := by
    rw [hi₀, ← hpre, List.drop_left, List.isPrefixOf_iff_prefix]
  have habove : ∀ j, buf.length - s.length < j →
      s.isPrefixOf (buf.drop j) = false := by
    intro j hj
    rw [Bool.eq_false_iff]
    intro hpref
    rw [ List.isPrefixOf_iff_prefix] at hpref
    have := hpref.length_le
    simp only [List.length_drop] at this
    omega
  exact rfindFrom_eq_some hhit habove (buf.length + 1) (by omega)

/-- Refinement of the word-boundary rule: for a non-empty shortcut that
the buffer ends with, should_expand holds exactly when the shortcut is
command-like, or starts at buffer position 0, or the character
immediately preceding it in the buffer is non-alphanumeric. -/
lemma should_expand_char (buf : List Char) (c : Char) (rest : List Char)
    (hsuf : (c :: rest) <:+ buf) :
    (should_expand buf (c :: rest) = true ↔
      (pyAlnum c = false ∨ buf.length = rest.length + 1
        ∨ pyAlnum (buf.getD (buf.length - rest.length - 2) 'a') = false)) := by
  have hKle : rest.length + 1 ≤ buf.length := by
    have := hsuf.length_le
    simpa using this
  have hrf : rfind (c :: rest) buf = some (buf.length - (rest.length + 1)) := by
    have := rfind_of_suffix (s := c :: rest) (by simp) hsuf
    simpa using this
  unfold should_expand
  rw [hrf]
  by_cases hcmd : pyAlnum c = true
  · simp only [hcmd, Bool.not_true]
    rw [if_neg Bool.false_ne_true]
    by_cases hzero : buf.length - (rest.length + 1) = 0
    · have hL : buf.length = rest.length + 1 := by omega
      simp [hzero, hL]
    · have hL : buf.length ≠ rest.length + 1 := by omega
      have hidx : buf.length - (rest.length + 1) - 1
          = buf.length - rest.length - 2 := by
        omega
      rw [if_neg hzero, hidx]
      constructor
      · intro h
        simp only [Bool.and_eq_true, decide_eq_true_eq, Bool.not_eq_true'] at h
        exact Or.inr (Or.inr h.2)
      · intro h
        simp only [Bool.and_eq_true, decide_eq_true_eq, Bool.not_eq_true']
        refine ⟨by omega, ?_⟩
        rcases h with h | h | h
        · exact absurd h (by simp)
        · exact absurd h hL
        · exact h
  · simp only [Bool.not_eq_true] at hcmd
    simp [hcmd]

/-- First-match property over descending-length-sorted candidates: the
returned match beats every strictly longer candidate. -/
lemma find_first_longest {l : List (List Char × List Char)} {buf : List Char}
    {m : List Char × List Char}
    (hs : l.Pairwise (fun a b => b.1.length ≤ a.1.length))
    (h : l.find? (fun p => matchCond buf p.1) = some m) :
    ∀ q ∈ l, m.1.length < q.1.length → matchCond buf q.1 = false := by
  induction l with
  | nil => simp at h
  | cons x xs ih =>
    by_cases hP : matchCond buf x.1 = true
    · rw [List.find?_cons_of_pos _ (by simpa using hP)] at h
      have hmx : m = x := by simpa using h.symm
      subst hmx
      intro q hq hlen
      rcases List.mem_cons.mp hq with hqx | hqxs
      · subst hqx
        omega
      · have := (List.pairwise_cons.mp hs).1 q hqxs
        omega
    · rw [List.find?_cons_of_neg _ (by simpa using hP)] at h
      intro q hq hlen
      rcases List.mem_cons.mp hq with hqx | hqxs
      · subst hqx
        exact Bool.eq_false_iff.mpr hP
      · exact ih (List.pairwise_cons.mp hs).2 h q hqxs hlen

lemma sortSnips_pairwise (snips : List (List Char × List Char)) :
    (sortSnips snips).Pairwise (fun a b => b.1.length ≤ a.1.length) := by
  haveI : IsTotal (List Char × List Char)
      (fun a b => b.1.length ≤ a.1.length) :=
    ⟨fun a b => le_total b.1.length a.1.length⟩
  haveI : IsTrans (List Char × List Char)
      (fun a b => b.1.length ≤ a.1.length) :=
    ⟨fun _ _ _ hab hbc => le_trans hbc hab⟩
  exact List.sorted_insertionSort _ snips

/-- C2: on any keystroke the matcher scans shortcuts in descending-length
order (the returned match is never pre-empted by a strictly longer
matching candidate); a matching candidate guarantees some match fires;
the expansion condition for a non-empty suffix shortcut is exactly:
command-like (first char non-alphanumeric), or starting at buffer
position 0, or preceded by a non-alphanumeric character; and for the
shortcut set containing slash-sig and sig, a buffer ending in xsig fires
no match. -/
theorem claim2_matcher :
    (∀ (snips : List (List Char × List Char)) (buf : List Char)
        (m : List Char × List Char),
      find_match snips buf = some m →
        matchCond buf m.1 = true ∧ m ∈ snips
          ∧ ∀ q ∈ snips, m.1.length < q.1.length → matchCond buf q.1 = false)
    ∧ (∀ (buf : List Char) (c : Char) (rest : List Char),
        (c :: rest) <:+ buf →
          (should_expand buf (c :: rest) = true ↔
            (pyAlnum c = false ∨ buf.length = rest.length + 1
              ∨ pyAlnum (buf.getD (buf.length - rest.length - 2) 'a') = false)))
    ∧ (∀ (snips : List (List Char × List Char)) (buf : List Char)
        (p : List Char × List Char),
        p ∈ snips → matchCond buf p.1 = true → find_match snips buf ≠ none)
    ∧ (∀ (buf : List Char) (a b : List Char),
        "xsig".toList <:+ buf →
          find_match [("/sig".toList, a), ("sig".toList, b)] buf = none) := by
  refine ⟨?_, ?_, ?_, ?_⟩
  · intro snips buf m h
    have hcond : matchCond buf m.1 = true := by
      have := List.find?_some h
      simpa using this
    have hmem : m ∈ snips := by
      have := List.mem_of_find?_eq_some h
      exact ((List.perm_insertionSort _ snips).mem_iff).mp this
    refine ⟨hcond, hmem, ?_⟩
    intro q hq hlen
    have hq' : q ∈ sortSnips snips :=
      ((List.perm_insertionSort _ snips).mem_iff).mpr hq
    exact find_first_longest (sortSnips_pairwise snips) h q hq' hlen
  · intro buf c rest hsuf
    exact should_expand_char buf c rest hsuf
  · intro snips buf p hp hcond hnone
    rw [find_match_eq_none_iff] at hnone
    rw [hnone p hp] at hcond
    exact Bool.false_ne_true hcond
  · intro buf a b hsuf
    have hx := hsuf
    obtain ⟨pre, hpre⟩ := hx
    have hsig : "sig".toList <:+ buf :=
      List.IsSuffix.trans ⟨['x'], rfl⟩ hsuf
    have hL : buf.length = pre.length + 4 := by
      rw [← hpre, List.length_append]
      rfl
    rw [find_match_eq_none_iff]
    intro p hp
    rcases List.mem_cons.mp hp with hp1 | hp2
    · subst hp1
      unfold matchCond
      have hnsuf : "/sig".toList.isSuffixOf buf = false := by
        rw [Bool.eq_false_iff]
        intro hsf
        rw [List.isSuffixOf_iff_suffix] at hsf
        rcases List.suffix_or_suffix_of_suffix hsf hsuf with h | h
        · have : "/sig".toList = "xsig".toList :=
            h.eq_of_length (by decide)
          exact absurd this (by decide)
        · have : "xsig".toList = "/sig".toList :=
            h.eq_of_length (by decide)
          exact absurd this (by decide)
      rw [hnsuf]
      rfl
    · rcases List.mem_cons.mp hp2 with hp2' | hnil
      · subst hp2'
        unfold matchCond
        have hse : should_expand buf "sig".toList = false := by
          rw [Bool.eq_false_iff]
          intro htrue
          have hiff := should_expand_char buf 's' "ig".toList hsig
          have hig : ("ig".toList).length = 2 := rfl
          rcases hiff.mp htrue with h | h | h
          · exact absurd h (by decide)
          · rw [hig] at h
            omega
          · rw [hig] at h
            have hidx : buf.length - 2 - 2 = pre.length := by omega
            rw [hidx, ← hpre,
              List.getD_append_right pre _ _ _ (le_refl _),
              Nat.sub_self] at h
            exact absurd h (by decide)
        rw [hse]
        simp
      · simp at hnil

/-- Witness for claim2_matcher at concrete inputs. -/
theorem claim2_matcher_witness :
    (matchCond "/ab".toList ("/ab".toList, "T".toList).1 = true
        ∧ ("/ab".toList, "T".toList) ∈ [("/ab".toList, "T".toList)]
        ∧ ∀ q ∈ [("/ab".toList, "T".toList)],
            ("/ab".toList, "T".toList).1.length < q.1.length →
              matchCond "/ab".toList q.1 = false)
      ∧ (should_expand "x/a".toList ('/' :: "a".toList) = true ↔
          (pyAlnum '/' = false
            ∨ "x/a".toList.length = "a".toList.length + 1
            ∨ pyAlnum ("x/a".toList.getD
                ("x/a".toList.length - "a".toList.length - 2) 'a') = false))
      ∧ find_match [("/ab".toList, "T".toList)] "/ab".toList ≠ none
      ∧ find_match [("/sig".toList, "A".toList), ("sig".toList, "B".toList)]
          "xsig".toList = none :=
  ⟨claim2_matcher.1 [("/ab".toList, "T".toList)] "/ab".toList
      ("/ab".toList, "T".toList) (by decide),
    claim2_matcher.2.1 "x/a".toList '/' "a".toList (by decide),
    claim2_matcher.2.2.1 [("/ab".toList, "T".toList)] "/ab".toList
      ("/ab".toList, "T".toList) (by decide) (by decide),
    claim2_matcher.2.2.2 "xsig".toList "A".toList "B".toList (by decide)⟩

/-! ## Evaluator helper lemmas -/

/-- Whether the random regex matches anywhere in s. -/
def hasRandomMatch : List Char → Bool
  | [] => false
  | c :: r => (matchRandomAt (c :: r)).isSome || hasRandomMatch r

lemma all_mono {p q : Char → Bool} (h : ∀ c, p c = true → q c = true)
    {l : List Char} (hl : l.all p = true) : l.all q = true := by
  rw [List.all_eq_true] at hl ⊢
  exact fun c hc => h c (hl c hc)

lemma isDigit_ne_char {c d : Char} (hd : d.isDigit = false)
    (h : c.isDigit = true) : decide (c ≠ d) = true := by
  simp only [ne_eq, decide_not, Bool.not_eq_true', decide_eq_false_iff_not]
  intro heq
  rw [heq] at h
  rw [h] at hd
  cases hd

lemma pySpace_ne_char {c d : Char} (hd : pySpace d = false)
    (h : pySpace c = true) : decide (c ≠ d) = true := by
  simp only [ne_eq, decide_not, Bool.not_eq_true', decide_eq_false_iff_not]
  intro heq
  rw [heq] at h
  rw [h] at hd
  cases hd

lemma isDigit_not_space {c : Char} (h : c.isDigit = true) :
    pySpace c = false := by
  unfold pySpace
  simp only [Bool.or_eq_false_iff, decide_eq_false_iff_not]
  refine ⟨⟨⟨⟨⟨?_, ?_⟩, ?_⟩, ?_⟩, ?_⟩, ?_⟩ <;>
    (intro heq; rw [heq] at h; exact absurd h (by decide))

lemma takeWhile_append_all {p : Char → Bool} {l : List Char} (m : List Char)
    (h : l.all p = true) :
    (l ++ m).takeWhile p = l ++ m.takeWhile p := by
  induction l with
  | nil => simp
  | cons c r ih =>
    simp only [List.all_cons, Bool.and_eq_true] at h
    simp only [List.cons_append, List.takeWhile_cons_of_pos h.1, ih h.2]

lemma dropWhile_append_all {p : Char → Bool} {l : List Char} (m : List Char)
    (h : l.all p = true) :
    (l ++ m).dropWhile p = m.dropWhile p := by
  induction l with
  | nil => simp
  | cons c r ih =>
    simp only [List.all_cons, Bool.and_eq_true] at h
    simp only [List.cons_append, List.dropWhile_cons_of_pos h.1, ih h.2]

lemma takeWhile_all_pos {p : Char → Bool} {l : List Char}
    (h : l.all p = true) : l.takeWhile p = l := by
  induction l with
  | nil => simp
  | cons c r ih =>
    simp only [List.all_cons, Bool.and_eq_true] at h
    simp only [List.takeWhile_cons_of_pos h.1, ih h.2]

lemma dropWhile_all_pos {p : Char → Bool} {l : List Char}
    (h : l.all p = true) : l.dropWhile p = [] := by
  induction l with
  | nil => simp
  | cons c r ih =>
    simp only [List.all_cons, Bool.and_eq_true] at h
    simp only [List.dropWhile_cons_of_pos h.1, ih h.2]

lemma isPrefixOf_append_self (l m : List Char) :
    l.isPrefixOf (l ++ m) = true := by
  rw [ List.isPrefixOf_iff_prefix]
  exact List.prefix_append l m

lemma dropWhile_space_digits_rev {d' : List Char} {e : Char}
    (he : e.isDigit = true) (hd' : d'.all Char.isDigit = true) :
    (d'.reverse ++ [e]).dropWhile pySpace = d'.reverse ++ [e] := by
  cases hc : d'.reverse with
  | nil =>
    simp only [hc, List.nil_append]
    exact List.dropWhile_cons_of_neg (by simp [isDigit_not_space he])
  | cons f r =>
    have hf : f.isDigit = true := by
      have hmem : f ∈ d' := by
        have : f ∈ d'.reverse := by rw [hc]; exact List.mem_cons_self f r
        simpa using this
      exact (List.all_eq_true.mp hd') f hmem
    rw [List.cons_append]
    exact List.dropWhile_cons_of_neg (by simp [isDigit_not_space hf])

/-- pyStrip of digits followed by spaces is the digits. -/
lemma pyStrip_digits_spaces {d w : List Char} (hd : d ≠ [])
    (hdig : d.all Char.isDigit = true) (hw : w.all pySpace = true) :
    pyStrip (d ++ w) = d := by
  obtain ⟨e, d', rfl⟩ := List.exists_cons_of_ne_nil hd
  simp only [List.all_cons, Bool.and_eq_true] at hdig
  unfold pyStrip
  rw [List.cons_append,
    List.dropWhile_cons_of_neg (by simp [isDigit_not_space hdig.1]),
    ← List.cons_append, List.reverse_append, List.reverse_cons,
    dropWhile_append_all _ (by simpa using hw),
    dropWhile_space_digits_rev hdig.1 hdig.2,
    List.reverse_append, List.reverse_reverse]
  rfl

/-- pyStrip of spaces followed by digits is the digits. -/
lemma pyStrip_spaces_digits {w d : List Char} (hd : d ≠ [])
    (hdig : d.all Char.isDigit = true) (hw : w.all pySpace = true) :
    pyStrip (w ++ d) = d := by
  obtain ⟨e, d', rfl⟩ := List.exists_cons_of_ne_nil hd
  simp only [List.all_cons, Bool.and_eq_true] at hdig
  unfold pyStrip
  rw [dropWhile_append_all _ hw,
    List.dropWhile_cons_of_neg (by simp [isDigit_not_space hdig.1]),
    List.reverse_cons,
    dropWhile_space_digits_rev hdig.1 hdig.2,
    List.reverse_append, List.reverse_reverse]
  rfl

lemma digitChar_isDigit (d : Nat) : (digitChar d).isDigit = true := by
  rcases Nat.lt_or_ge d 10 with h | h
  · interval_cases d <;> decide
  · unfold digitChar
    rw [List.getD_eq_default _ _ (by simpa using h)]
    decide

lemma natDigitsF_ne_nil (fuel n : Nat) : natDigitsF fuel n ≠ [] := by
  cases fuel with
  | zero => simp [natDigitsF]
  | succ fuel =>
    unfold natDigitsF
    split
    · simp
    · simp

lemma natDigits_ne_nil (n : Nat) : natDigits n ≠ [] := natDigitsF_ne_nil n n

lemma natDigitsF_all_digit (fuel n : Nat) :
    (natDigitsF fuel n).all Char.isDigit = true := by
  induction fuel generalizing n with
  | zero => simp [natDigitsF, digitChar_isDigit]
  | succ fuel ih =>
    unfold natDigitsF
    split
    · simp [digitChar_isDigit]
    · simp only [List.all_append, Bool.and_eq_true]
      exact ⟨ih _, by simp [digitChar_isDigit]⟩

lemma natDigits_all_digit (n : Nat) :
    (natDigits n).all Char.isDigit = true := natDigitsF_all_digit n n

lemma randint_range {a b : Nat} (d : Nat) (h : a ≤ b) :
    a ≤ randint a b d ∧ randint a b d ≤ b := by
  unfold randint
  have hm : d % (b - a + 1) < b - a + 1 := Nat.mod_lt _ (by omega)
  omega

/-- The regex matcher succeeds on the exact shape the random regex
denotes: digits, spaces, dash, spaces, digits, closing brace. -/
lemma matchRandomAt_shape {d₁ w₁ w₂ d₂ rest : List Char}
    (h₁ : d₁ ≠ []) (h₂ : d₁.all Char.isDigit = true)
    (h₃ : d₂ ≠ []) (h₄ : d₂.all Char.isDigit = true)
    (h₅ : w₁.all pySpace = true) (h₆ : w₂.all pySpace = true) :
    matchRandomAt ("\x7brandom:".toList ++ (d₁ ++ w₁ ++ '-' :: (w₂ ++ (d₂ ++ '}' :: rest))))
      = some (d₁ ++ w₁ ++ '-' :: (w₂ ++ d₂), rest) := by
  obtain ⟨e₂, d₂', rfl⟩ := List.exists_cons_of_ne_nil h₃
  simp only [List.all_cons, Bool.and_eq_true] at h₄
  have hspace_d : pySpace e₂ = false := isDigit_not_space h₄.1
  set X := '}' :: rest with hX
  have hA : (d₁ ++ w₁ ++ '-' :: (w₂ ++ (e₂ :: d₂' ++ X))).takeWhile Char.isDigit
      = d₁ ++ (w₁ ++ '-' :: (w₂ ++ (e₂ :: d₂' ++ X))).takeWhile Char.isDigit := by
    rw [List.append_assoc, takeWhile_append_all _ h₂]
  have hw₁ : (w₁ ++ '-' :: (w₂ ++ (e₂ :: d₂' ++ X))).takeWhile Char.isDigit = [] := by
    cases w₁ with
    | nil =>
      simp only [List.nil_append]
      exact List.takeWhile_cons_of_neg (by decide)
    | cons a w' =>
      have ha : pySpace a = true := by
        simp only [List.all_cons, Bool.and_eq_true] at h₅
        exact h₅.1
      have hand : a.isDigit = false := by
        rw [Bool.eq_false_iff]
        intro hdig
        rw [isDigit_not_space hdig] at ha
        cases ha
      rw [List.cons_append]
      exact List.takeWhile_cons_of_neg (by simp [hand])
  have hA' : (d₁ ++ w₁ ++ '-' :: (w₂ ++ (e₂ :: d₂' ++ X))).takeWhile Char.isDigit
      = d₁ := by rw [hA, hw₁, List.append_nil]
  have hB : (d₁ ++ w₁ ++ '-' :: (w₂ ++ (e₂ :: d₂' ++ X))).dropWhile Char.isDigit
      = w₁ ++ '-' :: (w₂ ++ (e₂ :: d₂' ++ X)) := by
    rw [List.append_assoc, dropWhile_append_all _ h₂]
    have hsum := List.takeWhile_append_dropWhile
      (p := Char.isDigit) (l := w₁ ++ '-' :: (w₂ ++ (e₂ :: d₂' ++ X)))
    rw [hw₁] at hsum
    simpa using hsum
  have hC : (w₁ ++ '-' :: (w₂ ++ (e₂ :: d₂' ++ X))).takeWhile pySpace = w₁ := by
    rw [takeWhile_append_all _ h₅, List.takeWhile_cons_of_neg (by decide),
      List.append_nil]
  have hD : (w₁ ++ '-' :: (w₂ ++ (e₂ :: d₂' ++ X))).dropWhile pySpace
      = '-' :: (w₂ ++ (e₂ :: d₂' ++ X)) := by
    rw [dropWhile_append_all _ h₅, List.dropWhile_cons_of_neg (by decide)]
  have hE : (w₂ ++ (e₂ :: d₂' ++ X)).takeWhile pySpace = w₂ := by
    rw [takeWhile_append_all _ h₆, List.cons_append,
      List.takeWhile_cons_of_neg (by simp [hspace_d]), List.append_nil]
  have hF : (w₂ ++ (e₂ :: d₂' ++ X)).dropWhile pySpace = e₂ :: (d₂' ++ X) := by
    rw [dropWhile_append_all _ h₆, List.cons_append,
      List.dropWhile_cons_of_neg (by simp [hspace_d])]
  have hG : (e₂ :: (d₂' ++ X)).takeWhile Char.isDigit = e₂ :: d₂' := by
    rw [List.takeWhile_cons_of_pos (by simp [h₄.1]),
      takeWhile_append_all _ h₄.2, hX,
      List.takeWhile_cons_of_neg (by decide), List.append_nil]
  have hH : (e₂ :: (d₂' ++ X)).dropWhile Char.isDigit = X := by
    rw [List.dropWhile_cons_of_pos (by simp [h₄.1]),
      dropWhile_append_all _ h₄.2, hX,
      List.dropWhile_cons_of_neg (by decide)]
  unfold matchRandomAt
  rw [isPrefixOf_append_self, if_pos rfl,
    show (8 : Nat) = ("\x7brandom:".toList).length from rfl, List.drop_left]
  unfold matchRandomBody
  simp only [hA', hB, hC, hD, hE, hF, hG, hH]
  rw [if_neg (by simp [h₁])]
  rw [if_neg (by simp)]

/-- replace_random on the exact group-1 shape the regex can produce. -/
lemma replace_random_shape {d₁ w₁ w₂ d₂ : List Char} (draw : Nat)
    (h₁ : d₁ ≠ []) (h₂ : d₁.all Char.isDigit = true)
    (h₃ : d₂ ≠ []) (h₄ : d₂.all Char.isDigit = true)
    (h₅ : w₁.all pySpace = true) (h₆ : w₂.all pySpace = true) :
    replace_random draw (d₁ ++ w₁ ++ '-' :: (w₂ ++ d₂))
      = if digitsVal d₁ ≤ digitsVal d₂ then
          natDigits (randint (digitsVal d₁) (digitsVal d₂) draw)
        else randomErrGt (digitsVal d₁) (digitsVal d₂) := by
  have hnd : (d₁ ++ w₁).all (fun c => decide (c ≠ '-')) = true := by
    rw [List.all_append]
    simp only [Bool.and_eq_true]
    exact ⟨all_mono (fun c hc => isDigit_ne_char (by decide) hc) h₂,
      all_mono (fun c hc => pySpace_ne_char (by decide) hc) h₅⟩
  unfold replace_random
  rw [List.append_assoc d₁ w₁]
  rw [show (d₁ ++ (w₁ ++ '-' :: (w₂ ++ d₂))) = (d₁ ++ w₁) ++ '-' :: (w₂ ++ d₂) by
    simp [List.append_assoc]]
  rw [takeWhile_append_all _ hnd, dropWhile_append_all _ hnd]
  rw [List.takeWhile_cons_of_neg (by simp), List.dropWhile_cons_of_neg (by simp)]
  simp only [List.append_nil]
  rw [pyStrip_digits_spaces h₁ h₂ h₅, pyStrip_spaces_digits h₃ h₄ h₆]
  unfold pyInt
  rw [if_pos ⟨h₁, by simpa using h₂⟩, if_pos ⟨h₃, by simpa using h₄⟩]

/-! Equation lemmas for the fuel-based scanners: the fuel is irrelevant
as long as it bounds the scanned length, giving the original recursion
equations back. -/

lemma matchRandomAt_head_ne {c : Char} {r : List Char} (hc : c ≠ '{') :
    matchRandomAt (c :: r) = none := by
  unfold matchRandomAt
  rw [if_neg]
  rw [Bool.not_eq_true, Bool.eq_false_iff]
  intro hpre
  rw [ List.isPrefixOf_iff_prefix] at hpre
  rw [show "\x7brandom:".toList = '{' :: "random:".toList from rfl] at hpre
  exact hc (List.cons_prefix_cons.mp hpre).1.symm

lemma matchRandomAt_second_ne {c : Char} {r : List Char} (hc : c ≠ 'r') :
    matchRandomAt ('{' :: c :: r) = none := by
  unfold matchRandomAt
  rw [if_neg]
  rw [Bool.not_eq_true, Bool.eq_false_iff]
  intro hpre
  rw [ List.isPrefixOf_iff_prefix] at hpre
  rw [show "\x7brandom:".toList = '{' :: 'r' :: "andom:".toList from rfl] at hpre
  have h2 := (List.cons_prefix_cons.mp (List.cons_prefix_cons.mp hpre).2).1
  exact hc h2.symm

lemma matchInputAt_head_ne {c : Char} {r : List Char} (hc : c ≠ '{') :
    matchInputAt (c :: r) = none := by
  unfold matchInputAt
  rw [if_neg]
  rw [Bool.not_eq_true, Bool.eq_false_iff]
  intro hpre
  rw [ List.isPrefixOf_iff_prefix] at hpre
  rw [show "\x7binput:".toList = '{' :: "input:".toList from rfl] at hpre
  exact hc (List.cons_prefix_cons.mp hpre).1.symm

lemma matchInputAt_second_ne {c : Char} {r : List Char} (hc : c ≠ 'i') :
    matchInputAt ('{' :: c :: r) = none := by
  unfold matchInputAt
  rw [if_neg]
  rw [Bool.not_eq_true, Bool.eq_false_iff]
  intro hpre
  rw [ List.isPrefixOf_iff_prefix] at hpre
  rw [show "\x7binput:".toList = '{' :: 'i' :: "nput:".toList from rfl] at hpre
  have h2 := (List.cons_prefix_cons.mp (List.cons_prefix_cons.mp hpre).2).1
  exact hc h2.symm

lemma matchInputAt_shape {p : List Char} (rest : List Char)
    (hp : p.all (fun c => decide (c ≠ '}')) = true) :
    matchInputAt (phInput p ++ rest) = some (p, rest) := by
  have hshape : phInput p ++ rest = "\x7binput:".toList ++ (p ++ '}' :: rest) := by
    simp [phInput]
  rw [hshape]
  unfold matchInputAt
  rw [isPrefixOf_append_self, if_pos rfl,
    show (7 : Nat) = ("\x7binput:".toList).length from rfl, List.drop_left]
  rw [dropWhile_append_all _ hp, List.dropWhile_cons_of_neg (by simp),
    takeWhile_append_all _ hp, List.takeWhile_cons_of_neg (by simp)]
  simp

lemma subRandomF_fuel {draws : Nat → Nat} :
    ∀ fuel fuel' k (s : List Char), s.length ≤ fuel → s.length ≤ fuel' →
      subRandomF draws fuel k s = subRandomF draws fuel' k s := by
  intro fuel
  induction fuel with
  | zero =>
    intro fuel' k s hs _
    have : s = [] := List.eq_nil_of_length_eq_zero (by omega)
    subst this
    cases fuel' <;> rfl
  | succ fuel ih =>
    intro fuel' k s hs hs'
    cases s with
    | nil => cases fuel' <;> rfl
    | cons c r =>
      cases fuel' with
      | zero => simp at hs'
      | succ fuel' =>
        simp only [List.length_cons] at hs hs'
        cases h : matchRandomAt (c :: r) with
        | some pr =>
          obtain ⟨g, rest⟩ := pr
          have hrest := matchRandomAt_length h
          simp only [List.length_cons] at hrest
          simp only [subRandomF, h]
          rw [ih fuel' (k + 1) rest (by omega) (by omega)]
        | none =>
          simp only [subRandomF, h]
          rw [ih fuel' k r (by omega) (by omega)]

lemma subRandom_nil (draws : Nat → Nat) (k : Nat) : subRandom draws k [] = [] := rfl

lemma subRandom_cons_match {c : Char} {r g rest : List Char}
    (draws : Nat → Nat) (k : Nat)
    (h : matchRandomAt (c :: r) = some (g, rest)) :
    subRandom draws k (c :: r)
      = replace_random (draws k) g ++ subRandom draws (k + 1) rest := by
  unfold subRandom
  have hrest := matchRandomAt_length h
  simp only [List.length_cons] at hrest ⊢
  simp only [subRandomF, h]
  rw [subRandomF_fuel r.length rest.length (k + 1) rest (by omega) (by omega)]

lemma subRandom_cons_skip {c : Char} {r : List Char}
    (draws : Nat → Nat) (k : Nat) (h : matchRandomAt (c :: r) = none) :
    subRandom draws k (c :: r) = c :: subRandom draws k r := by
  unfold subRandom
  simp only [List.length_cons]
  simp only [subRandomF, h]

lemma findInputsF_fuel :
    ∀ fuel fuel' (s : List Char), s.length ≤ fuel → s.length ≤ fuel' →
      findInputsF fuel s = findInputsF fuel' s := by
  intro fuel
  induction fuel with
  | zero =>
    intro fuel' s hs _
    have : s = [] := List.eq_nil_of_length_eq_zero (by omega)
    subst this
    cases fuel' <;> rfl
  | succ fuel ih =>
    intro fuel' s hs hs'
    cases s with
    | nil => cases fuel' <;> rfl
    | cons c r =>
      cases fuel' with
      | zero => simp at hs'
      | succ fuel' =>
        simp only [List.length_cons] at hs hs'
        cases h : matchInputAt (c :: r) with
        | some pr =>
          obtain ⟨p, rest⟩ := pr
          have hrest := matchInputAt_length h
          simp only [List.length_cons] at hrest
          simp only [findInputsF, h]
          rw [ih fuel' rest (by omega) (by omega)]
        | none =>
          simp only [findInputsF, h]
          rw [ih fuel' r (by omega) (by omega)]

lemma findInputs_nil : findInputs [] = [] := rfl

lemma findInputs_cons_match {c : Char} {r p rest : List Char}
    (h : matchInputAt (c :: r) = some (p, rest)) :
    findInputs (c :: r) = p :: findInputs rest := by
  unfold findInputs
  have hrest := matchInputAt_length h
  simp only [List.length_cons] at hrest ⊢
  simp only [findInputsF, h]
  rw [findInputsF_fuel r.length rest.length rest (by omega) (by omega)]

lemma findInputs_cons_skip {c : Char} {r : List Char}
    (h : matchInputAt (c :: r) = none) :
    findInputs (c :: r) = findInputs r := by
  unfold findInputs
  simp only [List.length_cons]
  simp only [findInputsF, h]

lemma replaceAllF_fuel {old new : List Char} (hne : old ≠ []) :
    ∀ fuel fuel' (s : List Char), s.length ≤ fuel → s.length ≤ fuel' →
      replaceAllF old new fuel s = replaceAllF old new fuel' s := by
  intro fuel
  induction fuel with
  | zero =>
    intro fuel' s hs _
    have : s = [] := List.eq_nil_of_length_eq_zero (by omega)
    subst this
    cases fuel' <;> rfl
  | succ fuel ih =>
    intro fuel' s hs hs'
    cases s with
    | nil => cases fuel' <;> rfl
    | cons c r =>
      cases fuel' with
      | zero => simp at hs'
      | succ fuel' =>
        simp only [List.length_cons] at hs hs'
        unfold replaceAllF
        by_cases hcond : old ≠ [] ∧ old.isPrefixOf (c :: r) = true
        · rw [if_pos hcond, if_pos hcond]
          have holdlen : 1 ≤ old.length := by
            have := List.length_pos.mpr hne
            omega
          rw [ih fuel' ((c :: r).drop old.length)
            (by simp only [List.length_drop, List.length_cons]; omega)
            (by simp only [List.length_drop, List.length_cons]; omega)]
        · rw [if_neg hcond, if_neg hcond]
          rw [ih fuel' r (by omega) (by omega)]

lemma replaceAll_nil (old new : List Char) : replaceAll old new [] = [] := rfl

lemma replaceAll_cons_match {old : List Char} {c : Char} {r : List Char}
    (new : List Char) (hne : old ≠ []) (h : old.isPrefixOf (c :: r) = true) :
    replaceAll old new (c :: r)
      = new ++ replaceAll old new ((c :: r).drop old.length) := by
  unfold replaceAll
  simp only [List.length_cons]
  simp only [replaceAllF]
  rw [if_pos ⟨hne, h⟩]
  have holdlen : 1 ≤ old.length := by
    have := List.length_pos.mpr hne
    omega
  rw [replaceAllF_fuel hne r.length ((c :: r).drop old.length).length _
    (by simp only [List.length_drop, List.length_cons]; omega) (le_refl _)]

lemma replaceAll_cons_skip {old : List Char} {c : Char} {r : List Char}
    (new : List Char) (h : ¬(old ≠ [] ∧ old.isPrefixOf (c :: r) = true)) :
    replaceAll old new (c :: r) = c :: replaceAll old new r := by
  unfold replaceAll
  simp only [List.length_cons]
  simp only [replaceAllF]
  rw [if_neg h]

lemma substOccF_fuel {resp : Nat → List Char} :
    ∀ fuel fuel' k (s : List Char), s.length ≤ fuel → s.length ≤ fuel' →
      substOccF resp fuel k s = substOccF resp fuel' k s := by
  intro fuel
  induction fuel with
  | zero =>
    intro fuel' k s hs _
    have : s = [] := List.eq_nil_of_length_eq_zero (by omega)
    subst this
    cases fuel' <;> rfl
  | succ fuel ih =>
    intro fuel' k s hs hs'
    cases s with
    | nil => cases fuel' <;> rfl
    | cons c r =>
      cases fuel' with
      | zero => simp at hs'
      | succ fuel' =>
        simp only [List.length_cons] at hs hs'
        cases h : matchInputAt (c :: r) with
        | some pr =>
          obtain ⟨p, rest⟩ := pr
          have hrest := matchInputAt_length h
          simp only [List.length_cons] at hrest
          simp only [substOccF, h]
          rw [ih fuel' (k + 1) rest (by omega) (by omega)]
        | none =>
          simp only [substOccF, h]
          rw [ih fuel' k r (by omega) (by omega)]

/-! Containment and identity lemmas for the evaluator passes. -/

lemma isPrefixOf_cons_ne {q : List Char} {a c : Char} {r : List Char}
    (hc : c ≠ a) : (a :: q).isPrefixOf (c :: r) = false := by
  rw [Bool.eq_false_iff]
  intro hpre
  rw [ List.isPrefixOf_iff_prefix] at hpre
  exact hc (List.cons_prefix_cons.mp hpre).1.symm

lemma containsSub_all_ne {q l : List Char}
    (h : l.all (fun c => decide (c ≠ '{')) = true) :
    containsSub ('{' :: q) l = false := by
  induction l with
  | nil => rfl
  | cons c r ih =>
    simp only [List.all_cons, Bool.and_eq_true, decide_eq_true_eq] at h
    unfold containsSub
    rw [isPrefixOf_cons_ne h.1, ih (by simpa using h.2)]
    rfl

lemma containsSub_cons_skip_head {pat : List Char} {c : Char} {r : List Char}
    (h : pat.isPrefixOf (c :: r) = false) :
    containsSub pat (c :: r) = containsSub pat r := by
  simp only [containsSub]
  rw [h]
  exact Bool.false_or _

lemma containsSub_skip_all {q l m : List Char}
    (h : l.all (fun c => decide (c ≠ '{')) = true) :
    containsSub ('{' :: q) (l ++ m) = containsSub ('{' :: q) m := by
  induction l with
  | nil => rfl
  | cons c r ih =>
    simp only [List.all_cons, Bool.and_eq_true, decide_eq_true_eq] at h
    rw [List.cons_append, containsSub_cons_skip_head (isPrefixOf_cons_ne h.1)]
    exact ih (by simpa using h.2)

lemma replaceAll_of_not_contains {old new s : List Char}
    (h : containsSub old s = false) : replaceAll old new s = s := by
  induction s with
  | nil => rfl
  | cons c r ih =>
    unfold containsSub at h
    rw [Bool.or_eq_false_iff] at h
    rw [replaceAll_cons_skip new (by simp [h.1]), ih h.2]

lemma hasRandomMatch_cons_ne {c : Char} {r : List Char} (hc : c ≠ '{') :
    hasRandomMatch (c :: r) = hasRandomMatch r := by
  simp only [hasRandomMatch]
  rw [matchRandomAt_head_ne hc]
  simp

lemma hasRandomMatch_skip_all {l m : List Char}
    (h : l.all (fun c => decide (c ≠ '{')) = true) :
    hasRandomMatch (l ++ m) = hasRandomMatch m := by
  induction l with
  | nil => rfl
  | cons c r ih =>
    simp only [List.all_cons, Bool.and_eq_true, decide_eq_true_eq] at h
    rw [List.cons_append, hasRandomMatch_cons_ne h.1]
    exact ih (by simpa using h.2)

lemma subRandom_of_no_match {s : List Char} (draws : Nat → Nat) (k : Nat)
    (h : hasRandomMatch s = false) : subRandom draws k s = s := by
  induction s generalizing k with
  | nil => rfl
  | cons c r ih =>
    unfold hasRandomMatch at h
    rw [Bool.or_eq_false_iff] at h
    have hnone : matchRandomAt (c :: r) = none := by
      cases hm : matchRandomAt (c :: r) with
      | none => rfl
      | some v =>
        have h1 := h.1
        rw [hm] at h1
        cases h1
    rw [subRandom_cons_skip draws k hnone, ih k h.2]

/-- The string replace_random produces always starts with a non-brace
character (a digit or the opening bracket of an error marker). -/
lemma replace_random_head_ne (draw : Nat) (g : List Char) :
    ∃ h t, replace_random draw g = h :: t ∧ h ≠ '{' := by
  unfold replace_random
  dsimp only
  split
  · split
    · split
      · rename_i minVal maxVal _ _ _
        obtain ⟨h0, t0, hht⟩ :
            ∃ h0 t0, natDigits (randint minVal maxVal draw) = h0 :: t0 := by
          cases hnd : natDigits (randint minVal maxVal draw) with
          | nil => exact absurd hnd (natDigits_ne_nil _)
          | cons a b => exact ⟨a, b, rfl⟩
        have hdig : h0.isDigit = true := by
          have hall := natDigits_all_digit (randint minVal maxVal draw)
          rw [hht] at hall
          simp only [List.all_cons, Bool.and_eq_true] at hall
          exact hall.1
        refine ⟨h0, t0, hht, ?_⟩
        intro heq
        rw [heq] at hdig
        exact absurd hdig (by decide)
      · exact ⟨'[', _, rfl, by decide⟩
    · exact ⟨'[', _, rfl, by decide⟩
  · exact ⟨'[', _, rfl, by decide⟩

lemma matchRandomAt_some_head {c : Char} {r g rest : List Char}
    (h : matchRandomAt (c :: r) = some (g, rest)) : c = '{' := by
  by_contra hc
  rw [matchRandomAt_head_ne hc] at h
  cases h

lemma subRandom_ne_of_match {s : List Char} (draws : Nat → Nat) (k : Nat)
    (h : hasRandomMatch s = true) : subRandom draws k s ≠ s := by
  induction s generalizing k with
  | nil => cases h
  | cons c r ih =>
    cases hm : matchRandomAt (c :: r) with
    | some pr =>
      obtain ⟨g, rest⟩ := pr
      rw [subRandom_cons_match draws k hm]
      obtain ⟨h0, t0, hht, hne⟩ := replace_random_head_ne (draws k) g
      rw [hht]
      intro heq
      have hc : c = '{' := matchRandomAt_some_head hm
      have : h0 = c := by
        have := congrArg (fun l => l.headD ' ') heq
        simpa using this
      rw [hc] at this
      exact hne this
    | none =>
      unfold hasRandomMatch at h
      rw [hm] at h
      simp only [Option.isSome_none, Bool.false_or] at h
      rw [subRandom_cons_skip draws k hm]
      intro heq
      exact ih k h (by
        have := congrArg List.tail heq
        simpa using this)

lemma findInputs_all_ne {l : List Char}
    (h : l.all (fun c => decide (c ≠ '{')) = true) : findInputs l = [] := by
  induction l with
  | nil => rfl
  | cons c r ih =>
    simp only [List.all_cons, Bool.and_eq_true, decide_eq_true_eq] at h
    rw [findInputs_cons_skip (matchInputAt_head_ne h.1)]
    exact ih (by simpa using h.2)

lemma findInputs_skip_all {l m : List Char}
    (h : l.all (fun c => decide (c ≠ '{')) = true) :
    findInputs (l ++ m) = findInputs m := by
  induction l with
  | nil => rfl
  | cons c r ih =>
    simp only [List.all_cons, Bool.and_eq_true, decide_eq_true_eq] at h
    rw [List.cons_append, findInputs_cons_skip (matchInputAt_head_ne h.1)]
    exact ih (by simpa using h.2)

lemma replaceFirst_at_head {old : List Char} (new rest : List Char)
    (hne : old ≠ []) : replaceFirst old new (old ++ rest) = new ++ rest := by
  obtain ⟨o, q, rfl⟩ := List.exists_cons_of_ne_nil hne
  rw [List.cons_append]
  simp only [replaceFirst]
  rw [if_pos ⟨by simp, by
    rw [← List.cons_append]
    exact isPrefixOf_append_self (o :: q) rest⟩]
  rw [← List.cons_append, List.drop_left]

lemma replaceFirst_skip_all {q pre new rest : List Char}
    (hpre : pre.all (fun c => decide (c ≠ '{')) = true) :
    replaceFirst ('{' :: q) new (pre ++ rest)
      = pre ++ replaceFirst ('{' :: q) new rest := by
  induction pre with
  | nil => rfl
  | cons c r ih =>
    simp only [List.all_cons, Bool.and_eq_true, decide_eq_true_eq] at hpre
    rw [List.cons_append]
    simp only [replaceFirst]
    rw [if_neg (by
      rw [isPrefixOf_cons_ne hpre.1]
      simp)]
    rw [ih (by simpa using hpre.2)]
    simp

lemma isPrefixOf_cons₂_ne {a b c : Char} {q r : List Char} (h : c ≠ b) :
    (a :: b :: q).isPrefixOf (a :: c :: r) = false := by
  rw [Bool.eq_false_iff]
  intro hpre
  rw [ List.isPrefixOf_iff_prefix] at hpre
  exact h (List.cons_prefix_cons.mp (List.cons_prefix_cons.mp hpre).2).1.symm

lemma replaceAll_self {old : List Char} (new : List Char) (hne : old ≠ []) :
    replaceAll old new old = new := by
  obtain ⟨o, q, rfl⟩ := List.exists_cons_of_ne_nil hne
  rw [replaceAll_cons_match new hne (by
    rw [ List.isPrefixOf_iff_prefix])]
  rw [List.drop_length, replaceAll_nil, List.append_nil]

lemma applyInputs_nil (s : List Char) : applyInputs [] s = s := rfl

/-- process_placeholders as the composition of its passes. -/
lemma process_eq (now : DateTime) (clip : List Char) (draws : Nat → Nat)
    (resp : Nat → List Char) (text : List Char) :
    process_placeholders now clip draws resp text
      = applyInputs
          ((findInputs (subRandom draws 0 (clipboard_pass clip (literal_pass now text)))).enum.map
            fun iv => (phInput iv.2, resp iv.1))
          (subRandom draws 0 (clipboard_pass clip (literal_pass now text))) := rfl

lemma literal_pass_id {now : DateTime} {t : List Char}
    (h1 : containsSub "{date}".toList t = false)
    (h2 : containsSub "{time}".toList t = false)
    (h3 : containsSub "{date_long}".toList t = false)
    (h4 : containsSub "{weekday}".toList t = false) :
    literal_pass now t = t := by
  unfold literal_pass
  rw [replaceAll_of_not_contains h1, replaceAll_of_not_contains h2,
    replaceAll_of_not_contains h3, replaceAll_of_not_contains h4]

lemma clipboard_pass_id {clip t : List Char}
    (h : containsSub "{clipboard}".toList t = false) :
    clipboard_pass clip t = t := by
  unfold clipboard_pass
  rw [if_neg (by simp only [h]; simp)]

lemma randomErrGt_all_ne (a b : Nat) :
    (randomErrGt a b).all (fun c => decide (c ≠ '{')) = true := by
  unfold randomErrGt
  simp only [List.all_append, Bool.and_eq_true]
  refine ⟨⟨⟨⟨by decide, ?_⟩, by decide⟩, ?_⟩, by decide⟩ <;>
    exact all_mono (fun c hc => isDigit_ne_char (by decide) hc) (natDigits_all_digit _)

lemma containsSub_phInput_skip {c₂ : Char} {q' p z : List Char} (hc : c₂ ≠ 'i')
    (hp : p.all (fun c => decide (c ≠ '{')) = true) :
    containsSub ('{' :: c₂ :: q') (phInput p ++ z)
      = containsSub ('{' :: c₂ :: q') z := by
  have hshape : phInput p ++ z
      = '{' :: 'i' :: ("nput:".toList ++ (p ++ '}' :: z)) := by
    simp [phInput]
  rw [hshape, containsSub_cons_skip_head (isPrefixOf_cons₂_ne (Ne.symm hc))]
  rw [show 'i' :: ("nput:".toList ++ (p ++ '}' :: z))
      = ('i' :: "nput:".toList) ++ (p ++ '}' :: z) from rfl]
  rw [containsSub_skip_all (by decide), containsSub_skip_all hp,
    containsSub_cons_skip_head (isPrefixOf_cons_ne (by decide))]

lemma containsSub_phInput_none {c₂ : Char} {q' p : List Char} (hc : c₂ ≠ 'i')
    (hp : p.all (fun c => decide (c ≠ '{')) = true) :
    containsSub ('{' :: c₂ :: q') (phInput p) = false := by
  rw [← List.append_nil (phInput p), containsSub_phInput_skip hc hp]
  rfl

lemma hasRandomMatch_phInput_skip {p z : List Char}
    (hp : p.all (fun c => decide (c ≠ '{')) = true) :
    hasRandomMatch (phInput p ++ z) = hasRandomMatch z := by
  have hshape : phInput p ++ z
      = '{' :: 'i' :: ("nput:".toList ++ (p ++ '}' :: z)) := by
    simp [phInput]
  rw [hshape]
  rw [show hasRandomMatch ('{' :: 'i' :: ("nput:".toList ++ (p ++ '}' :: z)))
      = ((matchRandomAt ('{' :: 'i' :: ("nput:".toList ++ (p ++ '}' :: z)))).isSome
          || hasRandomMatch ('i' :: ("nput:".toList ++ (p ++ '}' :: z)))) from rfl]
  rw [matchRandomAt_second_ne (by decide)]
  simp only [Option.isSome_none, Bool.false_or]
  rw [hasRandomMatch_cons_ne (by decide)]
  rw [hasRandomMatch_skip_all (by decide), hasRandomMatch_skip_all hp,
    hasRandomMatch_cons_ne (by decide)]

lemma findInputs_phInput {p : List Char} (z : List Char)
    (hp : p.all (fun c => decide (c ≠ '}')) = true) :
    findInputs (phInput p ++ z) = p :: findInputs z := by
  have hm := matchInputAt_shape z hp
  have hshape : phInput p ++ z
      = '{' :: ('i' :: ("nput:".toList ++ (p ++ '}' :: z))) := by
    simp [phInput]
  rw [hshape] at hm ⊢
  exact findInputs_cons_match hm

lemma containsSub_randomT_false {c₂ : Char} {q' d₁ d₂ : List Char}
    (hc : c₂ ≠ 'r')
    (h₂ : d₁.all Char.isDigit = true) (h₄ : d₂.all Char.isDigit = true) :
    containsSub ('{' :: c₂ :: q')
      ("\x7brandom:".toList ++ (d₁ ++ '-' :: (d₂ ++ ['}']))) = false := by
  have hshape : "\x7brandom:".toList ++ (d₁ ++ '-' :: (d₂ ++ ['}']))
      = '{' :: 'r' :: ("andom:".toList ++ (d₁ ++ '-' :: (d₂ ++ ['}']))) := by
    simp
  rw [hshape, containsSub_cons_skip_head (isPrefixOf_cons₂_ne (Ne.symm hc))]
  apply containsSub_all_ne
  simp only [List.all_cons, List.all_append, Bool.and_eq_true, decide_eq_true_eq]
  refine ⟨by decide, by decide,
    all_mono (fun c hcd => isDigit_ne_char (by decide) hcd) h₂, by decide,
    all_mono (fun c hcd => isDigit_ne_char (by decide) hcd) h₄, by decide⟩

/-! ## Claims C10, C7, C4 -/

/-- C10: the clipboard text is substituted after the date/time/date_long/
weekday passes but before the random and input scans, so clipboard text
containing a random or input placeholder is expanded during evaluation
(the random draw or collected response appears in the output), while the
literal placeholders inside clipboard text are inserted verbatim,
unexpanded, whatever the sampled now is. -/
theorem claim10_clipboard_order :
    (∀ (now : DateTime) (draws : Nat → Nat) (resp : Nat → List Char),
        process_placeholders now "{random:3-7}".toList draws resp
          "{clipboard}".toList = natDigits (3 + draws 0 % 5))
      ∧ (∀ (now : DateTime) (draws : Nat → Nat) (resp : Nat → List Char),
          process_placeholders now "{date}+{weekday}".toList draws resp
            "{clipboard}".toList = "{date}+{weekday}".toList)
      ∧ (∀ (now : DateTime) (draws : Nat → Nat) (resp : Nat → List Char),
          process_placeholders now "{input:Q}".toList draws resp
            "{clipboard}".toList = resp 0
            ∧ findInputs (subRandom draws 0 (clipboard_pass "{input:Q}".toList
                (literal_pass now "{clipboard}".toList))) = ["Q".toList]) := by
  have hlit : ∀ now : DateTime,
      literal_pass now "{clipboard}".toList = "{clipboard}".toList :=
    fun now => literal_pass_id (by decide) (by decide) (by decide) (by decide)
  have hclip : ∀ clip : List Char,
      clipboard_pass clip "{clipboard}".toList = clip := by
    intro clip
    unfold clipboard_pass
    rw [if_pos (by decide), replaceAll_self clip (by decide)]
  refine ⟨?_, ?_, ?_⟩
  · intro now draws resp
    rw [process_eq, hlit, hclip]
    have hsub : subRandom draws 0 "{random:3-7}".toList
        = replace_random (draws 0) "3-7".toList ++ subRandom draws 1 [] :=
      subRandom_cons_match draws 0 (by decide)
    have hrr : replace_random (draws 0) "3-7".toList
        = natDigits (3 + draws 0 % 5) := by
      rw [show "3-7".toList = ['3'] ++ [] ++ '-' :: ([] ++ ['7']) from rfl]
      rw [replace_random_shape (draws 0) (by decide) (by decide) (by decide)
        (by decide) (by decide) (by decide)]
      rw [show digitsVal ['3'] = 3 from by decide,
        show digitsVal ['7'] = 7 from by decide]
      rw [if_pos (by norm_num)]
      rw [show randint 3 7 (draws 0) = 3 + draws 0 % 5 from by
        unfold randint; norm_num]
    rw [hsub, subRandom_nil, List.append_nil, hrr]
    rw [findInputs_all_ne
      (all_mono (fun c hcd => isDigit_ne_char (by decide) hcd)
        (natDigits_all_digit _))]
    rfl
  · intro now draws resp
    rw [process_eq, hlit, hclip]
    rw [subRandom_of_no_match draws 0 (by decide)]
    rw [show findInputs "{date}+{weekday}".toList = [] from by decide]
    rfl
  · intro now draws resp
    have hsub : subRandom draws 0 (clipboard_pass "{input:Q}".toList
        (literal_pass now "{clipboard}".toList)) = "{input:Q}".toList := by
      rw [hlit, hclip]
      exact subRandom_of_no_match draws 0 (by decide)
    have hfi : findInputs "{input:Q}".toList = ["Q".toList] := by decide
    refine ⟨?_, by rw [hsub]; exact hfi⟩
    rw [process_eq, hsub, hfi]
    have hph : phInput "Q".toList = "{input:Q}".toList := by decide
    have happ : applyInputs [("{input:Q}".toList, resp 0)] "{input:Q}".toList
        = resp 0 := by
      unfold applyInputs
      simp only [List.foldl]
      have := @replaceFirst_at_head "{input:Q}".toList (resp 0) []
        (by decide)
      rw [List.append_nil] at this
      rw [this, List.append_nil]
    simp only [List.enum, List.enumFrom, List.map, hph]
    exact happ

/-- C7 counterexample: the template containing only the clipboard literal
(no random or input occurrence in the template itself) evaluated twice
with the same now and the same clipboard text yields different outputs
when the clipboard text contains a random placeholder, because that
placeholder is expanded with fresh random draws. -/
theorem claim7_counterexample :
    hasRandomMatch "{clipboard}".toList = false
      ∧ findInputs "{clipboard}".toList = []
      ∧ process_placeholders ⟨fun _ => [], (0 : Fin 7)⟩ "{random:1-10}".toList
            (fun _ => 0) (fun _ => []) "{clipboard}".toList
          ≠ process_placeholders ⟨fun _ => [], (0 : Fin 7)⟩ "{random:1-10}".toList
            (fun _ => 5) (fun _ => []) "{clipboard}".toList := by
  decide

/-- C7 (amended): evaluation is deterministic in the sampled now and the
clipboard text provided the intermediate text after the literal and
clipboard passes - not just the template - contains no random match and
no input occurrence; clipboard text may itself inject such placeholders,
which breaks determinism. -/
theorem claim7_determinism :
    ∀ (now : DateTime) (clip t : List Char) (draws draws' : Nat → Nat)
      (resp resp' : Nat → List Char),
      hasRandomMatch (clipboard_pass clip (literal_pass now t)) = false →
      findInputs (clipboard_pass clip (literal_pass now t)) = [] →
      process_placeholders now clip draws resp t
        = process_placeholders now clip draws' resp' t := by
  intro now clip t draws draws' resp resp' h1 h2
  rw [process_eq, process_eq, subRandom_of_no_match draws 0 h1,
    subRandom_of_no_match draws' 0 h1, h2]
  rfl

/-- Witness for claim7_determinism at concrete inputs. -/
theorem claim7_determinism_witness :
    process_placeholders ⟨fun _ => ['9'], (0 : Fin 7)⟩ ['c'] (fun _ => 0)
        (fun _ => ['u']) "{time}".toList
      = process_placeholders ⟨fun _ => ['9'], (0 : Fin 7)⟩ ['c'] (fun _ => 3)
        (fun _ => ['v']) "{time}".toList :=
  claim7_determinism ⟨fun _ => ['9'], (0 : Fin 7)⟩ ['c'] "{time}".toList
    (fun _ => 0) (fun _ => 3) (fun _ => ['u']) (fun _ => ['v'])
    (by decide) (by decide)

/-- C4 counterexample: the span with a space after the colon matches the
spec's whitespace-tolerant pattern but the code leaves it verbatim in the
output, and a non-numeric range is left verbatim too rather than being
substituted with an error marker. -/
theorem claim4_counterexample :
    specRandomSpan "{random: 1-2}".toList = true
      ∧ process_placeholders ⟨fun _ => [], (0 : Fin 7)⟩ [] (fun _ => 0)
          (fun _ => []) "{random: 1-2}".toList = "{random: 1-2}".toList
      ∧ process_placeholders ⟨fun _ => [], (0 : Fin 7)⟩ [] (fun _ => 0)
          (fun _ => []) "{random:abc-def}".toList
          = "{random:abc-def}".toList := by
  decide

/-- C4 (amended): subRandom replaces a span exactly when the code's
stricter pattern (digits immediately after the colon, digits immediately
before the closing brace, whitespace only around the dash) matches
somewhere: the substitution changes the text exactly when a match exists,
and a string without any match - including whitespace-after-colon spans
and non-numeric ranges - passes through evaluation verbatim; evaluation
is a total function and never raises. -/
theorem claim4_strict_pattern :
    (∀ (draws : Nat → Nat) (k : Nat) (s : List Char),
        subRandom draws k s = s ↔ hasRandomMatch s = false)
      ∧ (∀ (now : DateTime) (clip : List Char) (draws : Nat → Nat)
          (resp : Nat → List Char),
          process_placeholders now clip draws resp "{random: 1-2}".toList
            = "{random: 1-2}".toList)
      ∧ (∀ (now : DateTime) (clip : List Char) (draws : Nat → Nat)
          (resp : Nat → List Char),
          process_placeholders now clip draws resp "{random:abc-def}".toList
            = "{random:abc-def}".toList) := by
  refine ⟨?_, ?_, ?_⟩
  · intro draws k s
    constructor
    · intro heq
      cases hra : hasRandomMatch s with
      | false => rfl
      | true => exact absurd heq (subRandom_ne_of_match draws k hra)
    · exact subRandom_of_no_match draws k
  · intro now clip draws resp
    rw [process_eq,
      literal_pass_id (by decide) (by decide) (by decide) (by decide),
      clipboard_pass_id (by decide),
      subRandom_of_no_match draws 0 (by decide),
      show findInputs "{random: 1-2}".toList = [] from by decide]
    rfl
  · intro now clip draws resp
    rw [process_eq,
      literal_pass_id (by decide) (by decide) (by decide) (by decide),
      clipboard_pass_id (by decide),
      subRandom_of_no_match draws 0 (by decide),
      show findInputs "{random:abc-def}".toList = [] from by decide]
    rfl

/-! ## Claim C1 -/

/-- C1: on every group-1 string the random regex can capture (digits,
optional whitespace, dash, optional whitespace, digits), replace_random
substitutes the decimal string of a value in the inclusive range
[min, max] when min <= max and the visible min-greater-than-max error
marker otherwise; and end to end, a template that is exactly a
random placeholder with decimal bounds evaluates to a drawn value's
decimal string in range, or to the error marker when min > max, never
raising (the evaluator is a total function). -/
theorem claim1_random_range :
    (∀ (d₁ w₁ w₂ d₂ : List Char) (draw : Nat),
        d₁ ≠ [] → d₂ ≠ [] →
        d₁.all Char.isDigit = true → d₂.all Char.isDigit = true →
        w₁.all pySpace = true → w₂.all pySpace = true →
        (replace_random draw (d₁ ++ w₁ ++ '-' :: (w₂ ++ d₂))
            = if digitsVal d₁ ≤ digitsVal d₂ then
                natDigits (randint (digitsVal d₁) (digitsVal d₂) draw)
              else randomErrGt (digitsVal d₁) (digitsVal d₂))
          ∧ (digitsVal d₁ ≤ digitsVal d₂ →
              digitsVal d₁ ≤ randint (digitsVal d₁) (digitsVal d₂) draw
                ∧ randint (digitsVal d₁) (digitsVal d₂) draw ≤ digitsVal d₂))
      ∧ (∀ (d₁ d₂ : List Char) (now : DateTime) (clip : List Char)
          (draws : Nat → Nat) (resp : Nat → List Char),
          d₁ ≠ [] → d₂ ≠ [] →
          d₁.all Char.isDigit = true → d₂.all Char.isDigit = true →
          process_placeholders now clip draws resp
              ("\x7brandom:".toList ++ (d₁ ++ '-' :: (d₂ ++ ['}'])))
            = if digitsVal d₁ ≤ digitsVal d₂ then
                natDigits (randint (digitsVal d₁) (digitsVal d₂) (draws 0))
              else randomErrGt (digitsVal d₁) (digitsVal d₂)) := by
  constructor
  · intro d₁ w₁ w₂ d₂ draw h₁ h₃ h₂ h₄ h₅ h₆
    exact ⟨replace_random_shape draw h₁ h₂ h₃ h₄ h₅ h₆,
      fun hle => randint_range draw hle⟩
  · intro d₁ d₂ now clip draws resp h₁ h₃ h₂ h₄
    have hm : matchRandomAt ("\x7brandom:".toList ++ (d₁ ++ '-' :: (d₂ ++ ['}'])))
        = some (d₁ ++ '-' :: d₂, []) := by
      have := @matchRandomAt_shape d₁ [] [] d₂ [] h₁ h₂ h₃ h₄
        (by decide) (by decide)
      simpa using this
    have hrr : replace_random (draws 0) (d₁ ++ '-' :: d₂)
        = if digitsVal d₁ ≤ digitsVal d₂ then
            natDigits (randint (digitsVal d₁) (digitsVal d₂) (draws 0))
          else randomErrGt (digitsVal d₁) (digitsVal d₂) := by
      have := @replace_random_shape d₁ [] [] d₂ (draws 0)
        h₁ h₂ h₃ h₄ (by decide) (by decide)
      simpa using this
    rw [process_eq]
    rw [literal_pass_id
      (containsSub_randomT_false (by decide) h₂ h₄)
      (containsSub_randomT_false (by decide) h₂ h₄)
      (containsSub_randomT_false (by decide) h₂ h₄)
      (containsSub_randomT_false (by decide) h₂ h₄)]
    rw [clipboard_pass_id (containsSub_randomT_false (by decide) h₂ h₄)]
    have hsub : subRandom draws 0
        ("\x7brandom:".toList ++ (d₁ ++ '-' :: (d₂ ++ ['}'])))
        = replace_random (draws 0) (d₁ ++ '-' :: d₂) ++ subRandom draws 1 [] :=
      subRandom_cons_match draws 0 hm
    rw [hsub, subRandom_nil, List.append_nil, hrr]
    by_cases hle : digitsVal d₁ ≤ digitsVal d₂
    · rw [if_pos hle, findInputs_all_ne
        (all_mono (fun c hcd => isDigit_ne_char (by decide) hcd)
          (natDigits_all_digit _))]
      rfl
    · rw [if_neg hle, findInputs_all_ne (randomErrGt_all_ne _ _)]
      rfl

/-- Witness for claim1_random_range at the concrete bounds 1 and 10, and
at the reversed bounds 10 and 1. -/
theorem claim1_random_range_witness :
    (replace_random 4 (['1'] ++ [] ++ '-' :: ([] ++ ['1', '0']))
        = if digitsVal ['1'] ≤ digitsVal ['1', '0'] then
            natDigits (randint (digitsVal ['1']) (digitsVal ['1', '0']) 4)
          else randomErrGt (digitsVal ['1']) (digitsVal ['1', '0']))
      ∧ (digitsVal ['1'] ≤ digitsVal ['1', '0'] →
          digitsVal ['1'] ≤ randint (digitsVal ['1']) (digitsVal ['1', '0']) 4
            ∧ randint (digitsVal ['1']) (digitsVal ['1', '0']) 4
                ≤ digitsVal ['1', '0'])
      ∧ process_placeholders ⟨fun _ => [], (0 : Fin 7)⟩ [] (fun _ => 4)
          (fun _ => []) ("\x7brandom:".toList ++ (['1', '0'] ++ '-' :: (['1'] ++ ['}'])))
          = if digitsVal ['1', '0'] ≤ digitsVal ['1'] then
              natDigits (randint (digitsVal ['1', '0']) (digitsVal ['1']) 4)
            else randomErrGt (digitsVal ['1', '0']) (digitsVal ['1']) := by
  have h1 := claim1_random_range.1 ['1'] [] [] ['1', '0'] 4
    (by decide) (by decide) (by decide) (by decide) (by decide) (by decide)
  have h2 := claim1_random_range.2 ['1', '0'] ['1']
    ⟨fun _ => [], (0 : Fin 7)⟩ [] (fun _ => 4) (fun _ => [])
    (by decide) (by decide) (by decide) (by decide)
  exact ⟨h1.1, h1.2, h2⟩

/-! ## Claim C5 -/

/-- C5 counterexample: with the template holding the two placeholders
input-A and input-B, and the response to the first request being the
literal text of the second placeholder, the code's sequential
first-remaining-occurrence replacement substitutes the injected text
instead of the second original occurrence, so the result differs from
occurrence-indexed substitution (substOcc, built from the spec's words):
the code yields one answer leading, the spec's reading yields it
trailing. -/
theorem claim5_counterexample :
    process_placeholders ⟨fun _ => [], (0 : Fin 7)⟩ [] (fun _ => 0)
        (fun i => if i = 0 then "{input:B}".toList else "X".toList)
        "{input:A} {input:B}".toList
      = "X {input:B}".toList
      ∧ substOcc (fun i => if i = 0 then "{input:B}".toList else "X".toList)
          "{input:A} {input:B}".toList
        = "{input:B} X".toList
      ∧ process_placeholders ⟨fun _ => [], (0 : Fin 7)⟩ [] (fun _ => 0)
            (fun i => if i = 0 then "{input:B}".toList else "X".toList)
            "{input:A} {input:B}".toList
          ≠ substOcc (fun i => if i = 0 then "{input:B}".toList else "X".toList)
            "{input:A} {input:B}".toList := by
  decide

/-- C5 (amended): evaluation collects one response per input occurrence,
scanning left to right, asking once per occurrence even for duplicate
prompt texts; it then substitutes sequentially, each step replacing the
first remaining occurrence of the placeholder string in the current
result, which agrees with occurrence-indexed substitution whenever no
collected response itself contains placeholder text: for a template of
two identical prompts the output carries each occurrence's own response
in order. -/
theorem claim5_input_per_occurrence :
    ∀ (p m : List Char) (resp : Nat → List Char) (now : DateTime)
      (clip : List Char) (draws : Nat → Nat),
      p.all (fun c => decide (c ≠ '}')) = true →
      p.all (fun c => decide (c ≠ '{')) = true →
      m.all (fun c => decide (c ≠ '{')) = true →
      (resp 0).all (fun c => decide (c ≠ '{')) = true →
      findInputs (phInput p ++ (m ++ phInput p)) = [p, p]
        ∧ process_placeholders now clip draws resp (phInput p ++ (m ++ phInput p))
            = resp 0 ++ (m ++ resp 1) := by
  intro p m resp now clip draws hpr hpb hm hr0
  have hfi : findInputs (phInput p ++ (m ++ phInput p)) = [p, p] := by
    rw [findInputs_phInput (m ++ phInput p) hpr, findInputs_skip_all hm,
      ← List.append_nil (phInput p), findInputs_phInput [] hpr, findInputs_nil]
  refine ⟨hfi, ?_⟩
  have hcs : ∀ (c₂ : Char) (q' : List Char), c₂ ≠ 'i' →
      containsSub ('{' :: c₂ :: q') (phInput p ++ (m ++ phInput p)) = false := by
    intro c₂ q' hc
    rw [containsSub_phInput_skip hc hpb, containsSub_skip_all hm,
      containsSub_phInput_none hc hpb]
  rw [process_eq,
    literal_pass_id (hcs 'd' _ (by decide)) (hcs 't' _ (by decide))
      (hcs 'd' _ (by decide)) (hcs 'w' _ (by decide)),
    clipboard_pass_id (hcs 'c' _ (by decide))]
  have hnr : hasRandomMatch (phInput p ++ (m ++ phInput p)) = false := by
    rw [hasRandomMatch_phInput_skip hpb, hasRandomMatch_skip_all hm,
      ← List.append_nil (phInput p), hasRandomMatch_phInput_skip hpb]
    rfl
  rw [subRandom_of_no_match draws 0 hnr, hfi]
  simp only [List.enum, List.enumFrom, List.map]
  unfold applyInputs
  simp only [List.foldl]
  have hstep1 : replaceFirst (phInput p) (resp 0) (phInput p ++ (m ++ phInput p))
      = resp 0 ++ (m ++ phInput p) :=
    replaceFirst_at_head (resp 0) (m ++ phInput p) (by simp [phInput])
  have hstep2 : replaceFirst (phInput p) (resp 1) (resp 0 ++ (m ++ phInput p))
      = resp 0 ++ (m ++ resp 1) := by
    have hsk0 : replaceFirst (phInput p) (resp 1) (resp 0 ++ (m ++ phInput p))
        = resp 0 ++ replaceFirst (phInput p) (resp 1) (m ++ phInput p) := by
      have := @replaceFirst_skip_all ("input:".toList ++ p ++ "\x7d".toList)
        (resp 0) (resp 1) (m ++ phInput p) hr0
      simpa [phInput] using this
    have hsk1 : replaceFirst (phInput p) (resp 1) (m ++ phInput p)
        = m ++ replaceFirst (phInput p) (resp 1) (phInput p) := by
      have := @replaceFirst_skip_all ("input:".toList ++ p ++ "\x7d".toList)
        m (resp 1) (phInput p) hm
      simpa [phInput] using this
    have hsk2 : replaceFirst (phInput p) (resp 1) (phInput p) = resp 1 := by
      have := @replaceFirst_at_head (phInput p) (resp 1) []
        (by simp [phInput])
      rw [List.append_nil] at this
      rw [this, List.append_nil]
    rw [hsk0, hsk1, hsk2]
  simp only [Nat.zero_add]
  rw [hstep1, hstep2]

/-- Witness for claim5_input_per_occurrence at concrete inputs. -/
theorem claim5_input_per_occurrence_witness :
    findInputs (phInput "N".toList ++ (" ".toList ++ phInput "N".toList))
        = ["N".toList, "N".toList]
      ∧ process_placeholders ⟨fun _ => [], (0 : Fin 7)⟩ [] (fun _ => 0)
          (fun i => if i = 0 then "x".toList else "y".toList)
          (phInput "N".toList ++ (" ".toList ++ phInput "N".toList))
        = (fun i : Nat => if i = 0 then "x".toList else "y".toList) 0
            ++ (" ".toList
              ++ (fun i : Nat => if i = 0 then "x".toList else "y".toList) 1) :=
  claim5_input_per_occurrence "N".toList " ".toList
    (fun i => if i = 0 then "x".toList else "y".toList)
    ⟨fun _ => [], (0 : Fin 7)⟩ [] (fun _ => 0)
    (by decide) (by decide) (by decide) (by decide)

end Wordflow
